import Mathlib

/-!
Shallow embedding of the strided-tensor core of the candle repository,
covering the concatenation algorithm (`candle-core/src/tensor_cat.rs`),
the storage dispatch layer (`src/storage.rs`), the Metal backend's
buffer pool and matmul entry (`candle-core/src/metal_backend.rs`),
the CPU parallel range helper (`candle-core/src/cpu/kernels.rs`) and the
search-sorted example (`candle-examples/examples/search-sorted/search_sorted.rs`),
together with theorems settling the specification claims about them.
-/

namespace Candle

/-- Element types, mirroring `DType` in candle-core. Only the tag matters for
the dispatch and validation code modelled here. -/
inductive DType where
  | u8 | u32 | i64 | bf16 | f16 | f32 | f64
deriving DecidableEq

/-- Device locations as compared by `Device::location()`. -/
inductive DeviceLocation where
  | cpu
  | cuda (gpuId : Nat)
  | metal (gpuId : Nat)
deriving DecidableEq

/-- The error variants of `candle_core::Error` exercised by the modelled code. -/
inductive CError where
  | opRequiresAtLeastOneTensor (op : String)
  | dimOutOfRange (shape : List Nat) (dim : Nat) (op : String)
  | unexpectedNumberOfDims (expected : Nat) (got : Nat) (shape : List Nat)
  | shapeMismatchCat (dim : Nat) (firstShape : List Nat) (n : Nat) (nthShape : List Nat)
  | dtypeMismatchBinaryOp (lhs : DType) (rhs : DType) (op : String)
  | deviceMismatchBinaryOp (lhs : DeviceLocation) (rhs : DeviceLocation) (op : String)
deriving DecidableEq

/-- A tensor: storage data plus the layout (dims, stride, start offset) and the
dtype/device tags.  `α` is the element type of the underlying typed buffer. -/
structure Tensor (α : Type) where
  data : List α
  dims : List Nat
  stride : List Nat
  offset : Nat
  dtype : DType
  device : DeviceLocation
deriving DecidableEq

namespace Tensor

/-- `Shape::rank`. -/
def rank {α : Type} (t : Tensor α) : Nat := t.dims.length

/-- `Shape::elem_count`: product of the dimensions (1 for a scalar shape). -/
def elemCount {α : Type} (t : Tensor α) : Nat := t.dims.prod

end Tensor

/-- Modelled from the spec: `Dim::to_index` for a non-negative (usize) dimension
index (the `shape.rs` code is not part of the given sources).  Resolving `dim`
against a shape succeeds iff `dim < rank`, otherwise it is an invalid dim index
error ("invalid dim index (out of `0..rank`)", spec section 7). -/
def toIndex (dims : List Nat) (dim : Nat) (op : String) : Except CError Nat :=
  if dim < dims.length then .ok dim else .error (.dimOutOfRange dims dim op)

/-- Modelled from the spec: `Tensor::check_dim`, the per-argument in-range check
used by `cat` (`arg.check_dim(dim, "cat")`); fails iff `dim` is out of `0..rank`. -/
def Tensor.checkDim {α : Type} (t : Tensor α) (dim : Nat) (op : String) : Except CError Unit :=
  if dim < t.rank then .ok () else .error (.dimOutOfRange t.dims dim op)

/-- Swap the entries of a list at positions `i` and `j` (both assumed in range). -/
def listSwap (xs : List Nat) (i j : Nat) : List Nat :=
  (xs.set i (xs.getD j 0)).set j (xs.getD i 0)

/-- The layout part of a transposition: swap shape and stride entries at the two
positions.  Storage is shared unchanged. -/
def Tensor.swapDims {α : Type} (t : Tensor α) (i j : Nat) : Tensor α :=
  { t with dims := listSwap t.dims i j, stride := listSwap t.stride i j }

/-- Modelled from the spec (section 4.1, the `tensor.rs` code is not part of the
given sources): `transpose(dim1, dim2)` swaps the stride and shape entries at
the two positions and fails if an index is out of range. -/
def Tensor.transpose {α : Type} (t : Tensor α) (i j : Nat) : Except CError (Tensor α) :=
  if i < t.rank then
    if j < t.rank then .ok (t.swapDims i j)
    else .error (.dimOutOfRange t.dims j "transpose")
  else .error (.dimOutOfRange t.dims i "transpose")

/-- The linear storage offsets visited by a layout, in row-major traversal order
of its shape: `Σ i_k * stride[k]` over all multi-indices, innermost dimension
fastest. -/
def rowMajorOffsets : List Nat → List Nat → List Nat
  | [], _ => [0]
  | d :: ds, s :: ss =>
      (List.range d).flatMap (fun i => (rowMajorOffsets ds ss).map (fun o => i * s + o))
  | _ :: _, [] => []

/-- Modelled from the spec (section 4.2, the CPU backend implementation is not
part of the given sources): `copy_strided_src` copies the elements visited by
the source layout into `dst` starting at element offset `dstOffset`, in
row-major traversal order of the source shape.  `dflt` is returned by the
(in-bounds by invariant) element reads and is never actually read. -/
def copyStridedSrc {α : Type} (dflt : α) (srcData : List α) (dst : List α) (dstOffset : Nat)
    (dims stride : List Nat) (srcOffset : Nat) : List α :=
  let elems := (rowMajorOffsets dims stride).map (fun o => srcData.getD (srcOffset + o) dflt)
  dst.take dstOffset ++ elems ++ dst.drop (dstOffset + elems.length)

/-- Canonical row-major strides for a shape (`stride[r-1] = 1`,
`stride[k] = stride[k+1] * shape[k+1]`), as produced for a fresh contiguous
tensor by `from_storage`. -/
def contigStride : List Nat → List Nat
  | [] => []
  | _ :: ds => ds.prod :: contigStride ds

/-- The inner `for (dim_idx, (v1, v2))` loop of `Tensor::cat0`: walk the zipped
dimension lists, accumulating `cat_dims[0] += v2` at `dim_idx == 0` and failing
with `ShapeMismatchCat` at the first `dim_idx != 0` with `v1 != v2`.
`firstShape`/`nthShape` are the full shapes used in the error, `n` the 1-based
argument index. -/
def cat0ZipCheck (firstShape nthShape : List Nat) (n : Nat) :
    List Nat → List Nat → Nat → Nat → Except CError Nat
  | v1 :: fs, v2 :: ns, dimIdx, catDim0 =>
      let catDim0 := if dimIdx == 0 then catDim0 + v2 else catDim0
      if dimIdx ≠ 0 ∧ v1 ≠ v2 then
        .error (.shapeMismatchCat dimIdx firstShape n nthShape)
      else
        cat0ZipCheck firstShape nthShape n fs ns (dimIdx + 1) catDim0
  | _, _, _, catDim0 => .ok catDim0

/-- The per-argument loop of `Tensor::cat0`: dtype, device and rank checks, the
zipped shape check with `cat_dims[0]` accumulation, and the element-count
offset accumulation (`offsets.push(last + elem_count)`).  Returns the
accumulated dimension-0 size and the full offsets list (initially `[0]`). -/
def cat0Loop {α : Type} (dtype : DType) (device : DeviceLocation) (rank : Nat)
    (firstDims : List Nat) :
    List (Tensor α) → Nat → Nat → Nat → List Nat → Except CError (Nat × List Nat)
  | [], _, catDim0, _, offsets => .ok (catDim0, offsets)
  | a :: rest, argIdx, catDim0, lastOffset, offsets =>
      if a.dtype ≠ dtype then
        .error (.dtypeMismatchBinaryOp dtype a.dtype "cat")
      else if a.device ≠ device then
        .error (.deviceMismatchBinaryOp device a.device "cat")
      else if rank ≠ a.rank then
        .error (.unexpectedNumberOfDims rank a.rank a.dims)
      else
        match cat0ZipCheck firstDims a.dims (argIdx + 1) firstDims a.dims 0 catDim0 with
        | .error e => .error e
        | .ok catDim0 =>
            let nextOffset := lastOffset + a.elemCount
            cat0Loop dtype device rank firstDims rest (argIdx + 1) catDim0 nextOffset
              (offsets ++ [nextOffset])

/-- `Tensor::cat0` (`tensor_cat.rs` lines 75-148): concatenation along
dimension 0.  Validates each argument against the first, computes the output
shape by replacing dimension 0 with the accumulated size, allocates fresh
zero-initialized contiguous storage (`device.zeros`), and copies each argument
in order via `copy_strided_src` at the accumulated element offsets.  `z` is the
zero element of the dtype.  (When `rank = 0` the Rust code would panic at
`cat_dims[0] = 0`; that state is unreachable through `cat`, and the model's
`List.set` is a no-op there.) -/
def cat0 {α : Type} (z : α) (args : List (Tensor α)) : Except CError (Tensor α) :=
  match args with
  | [] => .error (.opRequiresAtLeastOneTensor "cat")
  | arg0 :: rest =>
      if rest.isEmpty then .ok arg0
      else
        match cat0Loop arg0.dtype arg0.device arg0.rank arg0.dims args 0 0 0 [0] with
        | .error e => .error e
        | .ok (catDim0, offsets) =>
            let shape := arg0.dims.set 0 catDim0
            let storage0 := List.replicate shape.prod z
            let storage := (args.zip offsets).foldl
              (fun st p => copyStridedSrc z p.1.data st p.2 p.1.dims p.1.stride p.1.offset)
              storage0
            .ok { data := storage, dims := shape, stride := contigStride shape,
                  offset := 0, dtype := arg0.dtype, device := arg0.device }

/-- The `for arg in args { arg.check_dim(dim, "cat") }` loop of `Tensor::cat`. -/
def checkDimAll {α : Type} (dim : Nat) : List (Tensor α) → Except CError Unit
  | [] => .ok ()
  | a :: rest =>
      match a.checkDim dim "cat" with
      | .error e => .error e
      | .ok _ => checkDimAll dim rest

/-- The inner zipped shape check of `Tensor::cat`'s validation loop: fail with
`ShapeMismatchCat` at the first `dim_idx != dim` where the dimension sizes
disagree. -/
def catZipCheck (dim : Nat) (firstShape nthShape : List Nat) (n : Nat) :
    List Nat → List Nat → Nat → Except CError Unit
  | v1 :: fs, v2 :: ns, dimIdx =>
      if dimIdx ≠ dim ∧ v1 ≠ v2 then
        .error (.shapeMismatchCat dimIdx firstShape n nthShape)
      else
        catZipCheck dim firstShape nthShape n fs ns (dimIdx + 1)
  | _, _, _ => .ok ()

/-- The `for (arg_idx, arg)` validation loop of `Tensor::cat` (lines 33-60):
rank check then zipped shape check for every argument. -/
def catCheckLoop {α : Type} (rank0 : Nat) (firstDims : List Nat) (dim : Nat) :
    List (Tensor α) → Nat → Except CError Unit
  | [], _ => .ok ()
  | a :: rest, argIdx =>
      if rank0 ≠ a.rank then
        .error (.unexpectedNumberOfDims rank0 a.rank a.dims)
      else
        match catZipCheck dim firstDims a.dims (argIdx + 1) firstDims a.dims 0 with
        | .error e => .error e
        | .ok _ => catCheckLoop rank0 firstDims dim rest (argIdx + 1)

/-- `Tensor::cat` (`tensor_cat.rs` lines 21-73): empty-list error, single
element short-circuit (before `dim` is resolved), dim resolution and
per-argument dim check, validation loop, then either `cat0` directly or the
transpose / `cat0` / transpose-back path for `dim != 0`. -/
def cat {α : Type} (z : α) (args : List (Tensor α)) (dimArg : Nat) : Except CError (Tensor α) :=
  match args with
  | [] => .error (.opRequiresAtLeastOneTensor "cat")
  | arg0 :: rest =>
      if rest.isEmpty then .ok arg0
      else
        match toIndex arg0.dims dimArg "cat" with
        | .error e => .error e
        | .ok dim =>
            match checkDimAll dim args with
            | .error e => .error e
            | .ok _ =>
                match catCheckLoop arg0.rank arg0.dims dim args 0 with
                | .error e => .error e
                | .ok _ =>
                    if dim == 0 then cat0 z args
                    else
                      match args.mapM (fun a => a.transpose 0 dim) with
                      | .error e => .error e
                      | .ok targs =>
                          match cat0 z targs with
                          | .error e => .error e
                          | .ok c => c.transpose 0 dim

/-! ## Storage dispatch (`src/storage.rs`) -/

/-- A CPU-resident storage buffer (payload abstracted to a buffer id). -/
structure CpuStorage where
  dtype : DType
  bufId : Nat
deriving DecidableEq

/-- A CUDA-resident storage buffer with its device ordinal. -/
structure CudaStorage where
  dtype : DType
  ordinal : Nat
  bufId : Nat
deriving DecidableEq

/-- `Storage`: tagged union over the backend-specific buffers. -/
inductive Storage where
  | cpu (s : CpuStorage)
  | cuda (s : CudaStorage)
deriving DecidableEq

namespace Storage

/-- `Storage::device().location()`. -/
def location : Storage → DeviceLocation
  | .cpu _ => .cpu
  | .cuda s => .cuda s.ordinal

/-- `Storage::dtype`. -/
def dtype : Storage → DType
  | .cpu s => s.dtype
  | .cuda s => s.dtype

/-- `Storage::same_device`: device-location equality check, `DeviceMismatchBinaryOp`
on failure. -/
def sameDevice (lhs rhs : Storage) (op : String) : Except CError Unit :=
  if lhs.location ≠ rhs.location then
    .error (.deviceMismatchBinaryOp lhs.location rhs.location op)
  else .ok ()

/-- `Storage::same_dtype`: dtype equality check, `DTypeMismatchBinaryOp` on failure. -/
def sameDtype (lhs rhs : Storage) (op : String) : Except CError Unit :=
  if lhs.dtype ≠ rhs.dtype then
    .error (.dtypeMismatchBinaryOp lhs.dtype rhs.dtype op)
  else .ok ()

/-- `Storage::binary_impl`: same-device and same-dtype checks, then dispatch on
the backend tags.  The backend implementations are passed in as functions so
the dispatch layer is modelled independently of any particular kernel. -/
def binaryImpl (name : String)
    (cpuOp : CpuStorage → CpuStorage → List Nat → List Nat → List Nat → Except CError CpuStorage)
    (cudaOp : CudaStorage → CudaStorage → List Nat → List Nat → List Nat → Except CError CudaStorage)
    (lhs rhs : Storage) (shape lhsStride rhsStride : List Nat) : Except CError Storage :=
  match sameDevice lhs rhs name with
  | .error e => .error e
  | .ok _ =>
      match sameDtype lhs rhs name with
      | .error e => .error e
      | .ok _ =>
          match lhs, rhs with
          | .cpu l, .cpu r =>
              match cpuOp l r shape lhsStride rhsStride with
              | .error e => .error e
              | .ok s => .ok (.cpu s)
          | .cuda l, .cuda r =>
              match cudaOp l r shape lhsStride rhsStride with
              | .error e => .error e
              | .ok s => .ok (.cuda s)
          | l, r => .error (.deviceMismatchBinaryOp l.location r.location name)

/-- `Storage::matmul_impl`: same checks and dispatch shape as `binary_impl`,
with the `(b, m, n, k)` dimensions and op name `"matmul"`. -/
def matmulImpl
    (cpuOp : CpuStorage → CpuStorage → Nat × Nat × Nat × Nat → List Nat → List Nat →
      Except CError CpuStorage)
    (cudaOp : CudaStorage → CudaStorage → Nat × Nat × Nat × Nat → List Nat → List Nat →
      Except CError CudaStorage)
    (lhs rhs : Storage) (bmnk : Nat × Nat × Nat × Nat)
    (lhsStride rhsStride : List Nat) : Except CError Storage :=
  match sameDevice lhs rhs "matmul" with
  | .error e => .error e
  | .ok _ =>
      match sameDtype lhs rhs "matmul" with
      | .error e => .error e
      | .ok _ =>
          match lhs, rhs with
          | .cpu l, .cpu r =>
              match cpuOp l r bmnk lhsStride rhsStride with
              | .error e => .error e
              | .ok s => .ok (.cpu s)
          | .cuda l, .cuda r =>
              match cudaOp l r bmnk lhsStride rhsStride with
              | .error e => .error e
              | .ok s => .ok (.cuda s)
          | l, r => .error (.deviceMismatchBinaryOp l.location r.location "matmul")

end Storage

/-! ## Metal backend: buffer pool and matmul entry (`metal_backend.rs`) -/

/-- A pooled Metal buffer: its identity and its `Arc` strong reference count. -/
structure PBuf where
  id : Nat
  strong : Nat
deriving DecidableEq

/-- Pool key: `(byte size, resource options)` (the options encoded as a tag). -/
abbrev BufKey := Nat × Nat

/-- The buffer-reuse pool: association list mirroring the
`HashMap<(NSUInteger, MTLResourceOptions), Vec<Arc<Buffer>>>`. -/
abbrev BufPool := List (BufKey × List PBuf)

/-- Look up the sub-buffer list for a key (`buffers.entry(key).or_insert(vec![])`
read side: a missing entry behaves as the empty list). -/
def poolLookup (pool : BufPool) (key : BufKey) : List PBuf :=
  match pool.find? (fun e => e.1 == key) with
  | some e => e.2
  | none => []

/-- Replace (or insert) the sub-buffer list for a key. -/
def poolSet (pool : BufPool) (key : BufKey) (bufs : List PBuf) : BufPool :=
  match pool with
  | [] => [(key, bufs)]
  | (k, v) :: rest =>
      if k == key then (k, bufs) :: rest else (k, v) :: poolSet rest key bufs

/-- The `for sub in &mut *subbuffers { if Arc::strong_count(sub) == 1 { ... } }`
scan: first pooled buffer whose strong count is exactly one. -/
def findReusable : List PBuf → Option PBuf
  | [] => none
  | b :: rest => if b.strong == 1 then some b else findReusable rest

/-- Bump the strong count of the first reusable buffer (the `Arc` clone handed
back to the caller). -/
def bumpFirstReusable : List PBuf → List PBuf
  | [] => []
  | b :: rest =>
      if b.strong == 1 then { b with strong := b.strong + 1 } :: rest
      else b :: bumpFirstReusable rest

/-- Result of a buffer request: a reused pooled buffer or a fresh allocation. -/
inductive NewBufferResult where
  | reused (id : Nat)
  | fresh (id : Nat)
deriving DecidableEq

/-- `MetalDevice::_new_buffer` (lines 118-131): look up the pool entry for
`(size, option)`, hand back the first sub-buffer whose reference count is
exactly one, otherwise allocate a fresh buffer (`freshId` models the device
allocation) and register it in the pool.  Strong counts: a reused buffer's
count goes from 1 to 2 (pool + caller); a fresh buffer enters the pool with
count 2 (pool clone + returned `Arc`). -/
def newBufferPooled (pool : BufPool) (key : BufKey) (freshId : Nat) :
    NewBufferResult × BufPool :=
  let subbuffers := poolLookup pool key
  match findReusable subbuffers with
  | some b => (.reused b.id, poolSet pool key (bumpFirstReusable subbuffers))
  | none => (.fresh freshId, poolSet pool key (subbuffers ++ [⟨freshId, 2⟩]))

/-- Metal backend errors exercised by the modelled code
(`MetalError` in `metal_backend.rs`). -/
inductive MetalError where
  | message (s : String)
  | matMulNonContiguous (lhsStride rhsStride : List Nat) (mnk : Nat × Nat × Nat)
deriving DecidableEq

/-- Outcome of a Metal backend call: success, a typed error, or a Rust panic
(`todo!`). -/
inductive MOutcome (α : Type) where
  | ok (a : α)
  | err (e : MetalError)
  | panic (msg : String)
deriving DecidableEq

/-- The `(type_id, size)` dtype match at the top of `MetalStorage::matmul`
(lines 769-779): `F32`/`F16` are supported, every other dtype hits
`todo!("Dtype for matmul {dtype:?} is not supported")`, which is a panic. -/
def metalMatmulDtype : DType → Option (Nat × Nat)
  | .f32 => some (32, 4)
  | .f16 => some (16, 2)
  | _ => none

/-- `MetalStorage::matmul` (lines 758-866), up to the command-buffer encoding:
the dtype match (panicking `todo!` on unsupported dtypes), the two
stride-pattern checks deriving `transpose_left` / `transpose_right` or failing
with `MatMulNonContiguous`, then the MPS kernel encoding modelled as appending
a `"matmul"` label to the command buffer.  The function returns the outcome
(with the transpose flags on success) together with the final command-buffer
contents; on error or panic the buffer is unchanged.  (Out-of-range stride
indexing, impossible for the rank `>= 2` layouts produced by the caller, is
modelled with a 0 default.) -/
def metalMatmul (dtype : DType) (b m n k : Nat) (lhsStride rhsStride : List Nat)
    (cb : List String) : MOutcome (Bool × Bool) × List String :=
  match metalMatmulDtype dtype with
  | none => (.panic "Dtype for matmul is not supported", cb)
  | some _ =>
      let rhsM1 := rhsStride.getD (rhsStride.length - 1) 0
      let rhsM2 := rhsStride.getD (rhsStride.length - 2) 0
      let lhsM1 := lhsStride.getD (lhsStride.length - 1) 0
      let lhsM2 := lhsStride.getD (lhsStride.length - 2) 0
      if lhsM1 == 1 && lhsM2 == k then
        metalMatmulRhs b m n k lhsStride rhsStride rhsM1 rhsM2 false cb
      else if lhsM1 == m && lhsM2 == 1 then
        metalMatmulRhs b m n k lhsStride rhsStride rhsM1 rhsM2 true cb
      else
        (.err (.matMulNonContiguous lhsStride rhsStride (m, n, k)), cb)
where
  /-- The `transpose_right` check and the kernel encoding. -/
  metalMatmulRhs (b m n k : Nat) (lhsStride rhsStride : List Nat) (rhsM1 rhsM2 : Nat)
      (transposeLeft : Bool) (cb : List String) : MOutcome (Bool × Bool) × List String :=
    if rhsM1 == 1 && rhsM2 == n then
      (.ok (transposeLeft, false), cb ++ ["matmul"])
    else if rhsM1 == k && rhsM2 == 1 then
      (.ok (transposeLeft, true), cb ++ ["matmul"])
    else
      (.err (.matMulNonContiguous lhsStride rhsStride (m, n, k)), cb)

/-! ## CPU parallel range helper (`cpu/kernels.rs`) -/

/-- The index list visited by one worker: `(thread_idx..up).step_by(n_threads)`. -/
def stepIndices (t up n : Nat) : List Nat :=
  List.range' t ((up - t + n - 1) / n) n

/-- `par_range(lo, up, n_threads, func)` (lines 71-89), modelled as the list of
indices at which `func` is invoked (per-thread lists concatenated in thread
order).  `n_threads == 1` runs `for i in lo..up` inline; otherwise each
`thread_idx in 0..n_threads` runs `for i in (thread_idx..up).step_by(n_threads)`
— note the parallel branch starts at `thread_idx`, not at `lo`. -/
def parRange (lo up nThreads : Nat) : List Nat :=
  if nThreads == 1 then
    List.range' lo (up - lo)
  else
    (List.range nThreads).flatMap (fun t => stepIndices t up nThreads)

/-! ## Search-sorted example (`search_sorted.rs`) -/

/-- The `while start < end` loop of `binary_search` (lines 87-105): halve the
range, moving `start` past `mid` when the probe is not yet placed
(`!(mid_val > value)` for right-insertion, `!(mid_val >= value)` for
left-insertion), otherwise shrink `end` to `mid`.  The in-bounds slice read
`slice[mid]` is modelled with `getD` (the default is never read since
`mid < e <= xs.length` in all calls). -/
def bsearchGo {α : Type} [LinearOrder α] (xs : List α) (v : α) (right : Bool)
    (start e : Nat) : Nat :=
  if h : start < e then
    let mid := start + (e - start) / 2
    let midVal := xs.getD mid v
    let pred := if right then !(decide (v < midVal)) else !(decide (v ≤ midVal))
    if pred then bsearchGo xs v right (mid + 1) e
    else bsearchGo xs v right start mid
  else start
termination_by e - start
decreasing_by
  · omega
  · omega

/-- `binary_search(slice, value, right)`: insertion-point binary search over the
whole slice. -/
def binarySearch {α : Type} [LinearOrder α] (xs : List α) (v : α) (right : Bool) : Nat :=
  bsearchGo xs v right 0 xs.length

/-! ## Theorems -/

/-- C8: `Tensor::cat` on an empty list returns the `OpRequiresAtLeastOneTensor`
error; on a single-element list it returns a clone of that tensor (hence with
identical shape) for every `dim` argument, including out-of-range ones, since
the short-circuit precedes dim resolution. -/
theorem cat_empty_errors_and_singleton_clones {α : Type} (z : α) (t : Tensor α) (d : Nat) :
    cat z ([] : List (Tensor α)) d = .error (.opRequiresAtLeastOneTensor "cat")
      ∧ cat z [t] d = .ok t := by
  exact ⟨rfl, rfl⟩

/-- C5 evaluation: the Metal backend's `matmul` does not return a typed error on
an unsupported dtype — it panics through `todo!`.  Evaluating the model on
F64/I64 operands (with perfectly valid row-major layouts) yields a panic, while
the same call with F32 succeeds. -/
theorem metal_matmul_unsupported_dtype_panics :
    Candle.metalMatmul .f64 1 2 2 2 [2, 1] [2, 1] []
        = (.panic "Dtype for matmul is not supported", [])
      ∧ Candle.metalMatmul .i64 1 2 2 2 [2, 1] [2, 1] []
        = (.panic "Dtype for matmul is not supported", [])
      ∧ Candle.metalMatmul .f32 1 2 2 2 [2, 1] [2, 1] []
        = (.ok (false, false), ["matmul"]) := by
  exact ⟨rfl, rfl, rfl⟩

theorem findReusable_eq_some {bufs : List PBuf} {b : PBuf} (h : findReusable bufs = some b) :
    b ∈ bufs ∧ b.strong = 1 := by
  induction bufs with
  | nil => simp [findReusable] at h
  | cons x rest ih =>
      by_cases hx : x.strong = 1
      · simp [findReusable, hx] at h
        subst h
        exact ⟨List.mem_cons_self x rest, hx⟩
      · have hx' : (x.strong == 1) = false := by simpa using hx
        simp [findReusable, hx'] at h
        obtain ⟨hb, hs⟩ := ih h
        exact ⟨List.mem_cons_of_mem x hb, hs⟩

theorem findReusable_eq_none {bufs : List PBuf} (h : ∀ b ∈ bufs, b.strong ≠ 1) :
    findReusable bufs = none := by
  induction bufs with
  | nil => rfl
  | cons x rest ih =>
      have hx : (x.strong == 1) = false := by
        simpa using h x (List.mem_cons_self x rest)
      simp [findReusable, hx]
      exact ih (fun b hb => h b (List.mem_cons_of_mem x hb))

theorem findReusable_isSome_of_mem {bufs : List PBuf} {b : PBuf}
    (hb : b ∈ bufs) (hs : b.strong = 1) : ∃ c, findReusable bufs = some c := by
  induction bufs with
  | nil => cases hb
  | cons x rest ih =>
      by_cases hx : x.strong = 1
      · exact ⟨x, by simp [findReusable, hx]⟩
      · have hx' : (x.strong == 1) = false := by simpa using hx
        rcases List.mem_cons.mp hb with h1 | h1
        · exact absurd (h1 ▸ hs) hx
        · obtain ⟨c, hc⟩ := ih h1
          exact ⟨c, by simp [findReusable, hx', hc]⟩

/-- C7: `MetalDevice::_new_buffer` looks up the pool entry keyed by
`(size, options)` and (i) hands out a pooled buffer only if its reference count
is exactly one, (ii) allocates fresh and registers the new buffer in the pool
entry when no pooled buffer has count one, and (iii) does reuse whenever some
pooled buffer of the key has count one.  Consequently a buffer still referenced
outside the pool (count ≥ 2) is never returned for reuse. -/
theorem metal_new_buffer_pool_reuse (pool : BufPool) (key : BufKey) (freshId : Nat) :
    (∀ id, (newBufferPooled pool key freshId).1 = .reused id →
        ∃ b ∈ poolLookup pool key, b.id = id ∧ b.strong = 1)
      ∧ ((∀ b ∈ poolLookup pool key, b.strong ≠ 1) →
          newBufferPooled pool key freshId =
            (.fresh freshId, poolSet pool key (poolLookup pool key ++ [⟨freshId, 2⟩])))
      ∧ (∀ b ∈ poolLookup pool key, b.strong = 1 →
          ∃ id, (newBufferPooled pool key freshId).1 = .reused id) := by
  refine ⟨?_, ?_, ?_⟩
  · intro id h
    cases hf : findReusable (poolLookup pool key) with
    | none => simp [newBufferPooled, hf] at h
    | some b =>
        simp [newBufferPooled, hf] at h
        obtain ⟨hb, hs⟩ := findReusable_eq_some hf
        exact ⟨b, hb, h ▸ rfl, hs⟩
  · intro h
    simp [newBufferPooled, findReusable_eq_none h]
  · intro b hb hs
    obtain ⟨c, hc⟩ := findReusable_isSome_of_mem hb hs
    exact ⟨c.id, by simp [newBufferPooled, hc]⟩

/-- C2: `Storage::binary_impl` and `Storage::matmul_impl` return the
`DeviceMismatchBinaryOp` error when the operand device locations differ, the
`DTypeMismatchBinaryOp` error when the dtypes differ (devices agreeing), and
otherwise dispatch to the backend matching the storage tag.  The two error
cases hold for every choice of backend implementation functions, so the checks
run before any backend code. -/
theorem storage_binary_matmul_dispatch (name : String)
    (cpuOp : CpuStorage → CpuStorage → List Nat → List Nat → List Nat → Except CError CpuStorage)
    (cudaOp : CudaStorage → CudaStorage → List Nat → List Nat → List Nat → Except CError CudaStorage)
    (cpuMat : CpuStorage → CpuStorage → Nat × Nat × Nat × Nat → List Nat → List Nat →
      Except CError CpuStorage)
    (cudaMat : CudaStorage → CudaStorage → Nat × Nat × Nat × Nat → List Nat → List Nat →
      Except CError CudaStorage)
    (lhs rhs : Storage) (shape lhsStride rhsStride : List Nat) (bmnk : Nat × Nat × Nat × Nat) :
    (lhs.location ≠ rhs.location →
        Storage.binaryImpl name cpuOp cudaOp lhs rhs shape lhsStride rhsStride
            = .error (.deviceMismatchBinaryOp lhs.location rhs.location name)
          ∧ Storage.matmulImpl cpuMat cudaMat lhs rhs bmnk lhsStride rhsStride
            = .error (.deviceMismatchBinaryOp lhs.location rhs.location "matmul"))
      ∧ (lhs.location = rhs.location → lhs.dtype ≠ rhs.dtype →
          Storage.binaryImpl name cpuOp cudaOp lhs rhs shape lhsStride rhsStride
              = .error (.dtypeMismatchBinaryOp lhs.dtype rhs.dtype name)
            ∧ Storage.matmulImpl cpuMat cudaMat lhs rhs bmnk lhsStride rhsStride
              = .error (.dtypeMismatchBinaryOp lhs.dtype rhs.dtype "matmul"))
      ∧ (lhs.location = rhs.location → lhs.dtype = rhs.dtype →
          (∃ l r, lhs = .cpu l ∧ rhs = .cpu r
              ∧ Storage.binaryImpl name cpuOp cudaOp lhs rhs shape lhsStride rhsStride
                  = (cpuOp l r shape lhsStride rhsStride).map Storage.cpu
              ∧ Storage.matmulImpl cpuMat cudaMat lhs rhs bmnk lhsStride rhsStride
                  = (cpuMat l r bmnk lhsStride rhsStride).map Storage.cpu)
            ∨ (∃ l r, lhs = .cuda l ∧ rhs = .cuda r
              ∧ Storage.binaryImpl name cpuOp cudaOp lhs rhs shape lhsStride rhsStride
                  = (cudaOp l r shape lhsStride rhsStride).map Storage.cuda
              ∧ Storage.matmulImpl cpuMat cudaMat lhs rhs bmnk lhsStride rhsStride
                  = (cudaMat l r bmnk lhsStride rhsStride).map Storage.cuda)) := by
  refine ⟨?_, ?_, ?_⟩
  · intro hdev
    have hdev' : (lhs.location ≠ rhs.location) = True := by simp [hdev]
    constructor
    · simp [Storage.binaryImpl, Storage.sameDevice, hdev']
    · simp [Storage.matmulImpl, Storage.sameDevice, hdev']
  · intro hdev hdt
    constructor
    · simp [Storage.binaryImpl, Storage.sameDevice, Storage.sameDtype, hdev, hdt]
    · simp [Storage.matmulImpl, Storage.sameDevice, Storage.sameDtype, hdev, hdt]
  · intro hdev hdt
    cases lhs with
    | cpu l =>
        cases rhs with
        | cpu r =>
            refine .inl ⟨l, r, rfl, rfl, ?_, ?_⟩
            · simp [Storage.binaryImpl, Storage.sameDevice, Storage.sameDtype, hdev, hdt]
              cases cpuOp l r shape lhsStride rhsStride <;> simp [Except.map]
            · simp [Storage.matmulImpl, Storage.sameDevice, Storage.sameDtype, hdev, hdt]
              cases cpuMat l r bmnk lhsStride rhsStride <;> simp [Except.map]
        | cuda r => simp [Storage.location] at hdev
    | cuda l =>
        cases rhs with
        | cpu r => simp [Storage.location] at hdev
        | cuda r =>
            refine .inr ⟨l, r, rfl, rfl, ?_, ?_⟩
            · simp [Storage.binaryImpl, Storage.sameDevice, Storage.sameDtype, hdev, hdt]
              cases cudaOp l r shape lhsStride rhsStride <;> simp [Except.map]
            · simp [Storage.matmulImpl, Storage.sameDevice, Storage.sameDtype, hdev, hdt]
              cases cudaMat l r bmnk lhsStride rhsStride <;> simp [Except.map]

/-- The accepted stride pattern for the left matmul operand (an `m × k` block):
row-major (`[.., k, 1]`) or fully transposed (`[.., 1, m]`). -/
def lhsPatternOk (lhsStride : List Nat) (m k : Nat) : Prop :=
  (lhsStride.getD (lhsStride.length - 1) 0 = 1 ∧ lhsStride.getD (lhsStride.length - 2) 0 = k)
    ∨ (lhsStride.getD (lhsStride.length - 1) 0 = m ∧ lhsStride.getD (lhsStride.length - 2) 0 = 1)

/-- The accepted stride pattern for the right matmul operand (a `k × n` block):
row-major (`[.., n, 1]`) or fully transposed (`[.., 1, k]`). -/
def rhsPatternOk (rhsStride : List Nat) (n k : Nat) : Prop :=
  (rhsStride.getD (rhsStride.length - 1) 0 = 1 ∧ rhsStride.getD (rhsStride.length - 2) 0 = n)
    ∨ (rhsStride.getD (rhsStride.length - 1) 0 = k ∧ rhsStride.getD (rhsStride.length - 2) 0 = 1)

theorem metalMatmulRhs_ok_iff (b m n k : Nat) (ls rs : List Nat) (rm1 rm2 : Nat)
    (tl : Bool) (cb : List String) :
    (∃ fl, metalMatmul.metalMatmulRhs b m n k ls rs rm1 rm2 tl cb
        = (.ok fl, cb ++ ["matmul"]))
      ↔ ((rm1 = 1 ∧ rm2 = n) ∨ (rm1 = k ∧ rm2 = 1)) := by
  by_cases h1 : rm1 = 1 ∧ rm2 = n
  · obtain ⟨h1a, h1b⟩ := h1
    subst h1a
    subst h1b
    simp [metalMatmul.metalMatmulRhs]
  · have h1' : ((rm1 == 1) && (rm2 == n)) = false := by
      rcases Decidable.not_and_iff_or_not.mp h1 with h | h <;> simp [h]
    by_cases h2 : rm1 = k ∧ rm2 = 1
    · obtain ⟨h2a, h2b⟩ := h2
      subst h2a
      subst h2b
      constructor
      · intro _
        exact Or.inr ⟨rfl, rfl⟩
      · intro _
        exact ⟨(tl, true), by simp [metalMatmul.metalMatmulRhs, h1']⟩
    · have h2' : ((rm1 == k) && (rm2 == 1)) = false := by
        rcases Decidable.not_and_iff_or_not.mp h2 with h | h <;> simp [h]
      constructor
      · intro ⟨fl, hf⟩
        simp [metalMatmul.metalMatmulRhs, h1', h2'] at hf
      · intro h
        rcases h with h | h
        · exact absurd h h1
        · exact absurd h h2

theorem metalMatmulRhs_err (b m n k : Nat) (ls rs : List Nat) (rm1 rm2 : Nat)
    (tl : Bool) (cb : List String)
    (h : ¬ ((rm1 = 1 ∧ rm2 = n) ∨ (rm1 = k ∧ rm2 = 1))) :
    metalMatmul.metalMatmulRhs b m n k ls rs rm1 rm2 tl cb
      = (.err (.matMulNonContiguous ls rs (m, n, k)), cb) := by
  have h1' : ((rm1 == 1) && (rm2 == n)) = false := by
    rcases Decidable.not_and_iff_or_not.mp (fun hc => h (Or.inl hc)) with hx | hx <;> simp [hx]
  have h2' : ((rm1 == k) && (rm2 == 1)) = false := by
    rcases Decidable.not_and_iff_or_not.mp (fun hc => h (Or.inr hc)) with hx | hx <;> simp [hx]
  simp [metalMatmul.metalMatmulRhs, h1', h2']

theorem metalMatmul_supported_eq (dt : DType) (hdt : dt = .f32 ∨ dt = .f16)
    (b m n k : Nat) (ls rs : List Nat) (cb : List String) :
    metalMatmul dt b m n k ls rs cb =
      (if ls.getD (ls.length - 1) 0 == 1 && ls.getD (ls.length - 2) 0 == k then
        metalMatmul.metalMatmulRhs b m n k ls rs (rs.getD (rs.length - 1) 0)
          (rs.getD (rs.length - 2) 0) false cb
      else if ls.getD (ls.length - 1) 0 == m && ls.getD (ls.length - 2) 0 == 1 then
        metalMatmul.metalMatmulRhs b m n k ls rs (rs.getD (rs.length - 1) 0)
          (rs.getD (rs.length - 2) 0) true cb
      else (.err (.matMulNonContiguous ls rs (m, n, k)), cb)) := by
  rcases hdt with rfl | rfl <;> rfl

/-- C6: for a supported dtype and operand layouts of rank at least 2, the Metal
`matmul` accepts the operands iff the last two strides of each form one of the
two permitted patterns (standard row-major or fully transposed), in which case
exactly one kernel is encoded on the command buffer; any other stride pattern
yields the `MatMulNonContiguous` error with the command buffer unchanged (no
kernel encoded). -/
theorem metal_matmul_stride_pattern_check (dt : DType) (hdt : dt = .f32 ∨ dt = .f16)
    (b m n k : Nat) (lhsStride rhsStride : List Nat)
    (hl : 2 ≤ lhsStride.length) (hr : 2 ≤ rhsStride.length) (cb : List String) :
    ((∃ flags, metalMatmul dt b m n k lhsStride rhsStride cb = (.ok flags, cb ++ ["matmul"]))
        ↔ lhsPatternOk lhsStride m k ∧ rhsPatternOk rhsStride n k)
      ∧ (¬ (lhsPatternOk lhsStride m k ∧ rhsPatternOk rhsStride n k) →
          metalMatmul dt b m n k lhsStride rhsStride cb
            = (.err (.matMulNonContiguous lhsStride rhsStride (m, n, k)), cb)) := by
  clear hl hr
  rw [metalMatmul_supported_eq dt hdt]
  by_cases hA : lhsStride.getD (lhsStride.length - 1) 0 = 1
      ∧ lhsStride.getD (lhsStride.length - 2) 0 = k
  · have hA' : (lhsStride.getD (lhsStride.length - 1) 0 == 1
        && lhsStride.getD (lhsStride.length - 2) 0 == k) = true := by
      rw [Bool.and_eq_true, beq_iff_eq, beq_iff_eq]
      exact hA
    rw [if_pos hA']
    have hlp : lhsPatternOk lhsStride m k := Or.inl hA
    refine ⟨?_, ?_⟩
    · rw [metalMatmulRhs_ok_iff]
      unfold rhsPatternOk
      tauto
    · intro hno
      refine metalMatmulRhs_err _ _ _ _ _ _ _ _ _ _ ?_
      intro hc
      exact hno ⟨hlp, hc⟩
  · have hA' : ¬ (lhsStride.getD (lhsStride.length - 1) 0 == 1
        && lhsStride.getD (lhsStride.length - 2) 0 == k) = true := by
      rw [Bool.and_eq_true, beq_iff_eq, beq_iff_eq]
      exact hA
    rw [if_neg hA']
    by_cases hB : lhsStride.getD (lhsStride.length - 1) 0 = m
        ∧ lhsStride.getD (lhsStride.length - 2) 0 = 1
    · have hB' : (lhsStride.getD (lhsStride.length - 1) 0 == m
          && lhsStride.getD (lhsStride.length - 2) 0 == 1) = true := by
        rw [Bool.and_eq_true, beq_iff_eq, beq_iff_eq]
        exact hB
      rw [if_pos hB']
      have hlp : lhsPatternOk lhsStride m k := Or.inr hB
      refine ⟨?_, ?_⟩
      · rw [metalMatmulRhs_ok_iff]
        unfold rhsPatternOk
        tauto
      · intro hno
        refine metalMatmulRhs_err _ _ _ _ _ _ _ _ _ _ ?_
        intro hc
        exact hno ⟨hlp, hc⟩
    · have hB' : ¬ (lhsStride.getD (lhsStride.length - 1) 0 == m
          && lhsStride.getD (lhsStride.length - 2) 0 == 1) = true := by
        rw [Bool.and_eq_true, beq_iff_eq, beq_iff_eq]
        exact hB
      rw [if_neg hB']
      have hlno : ¬ lhsPatternOk lhsStride m k := by
        unfold lhsPatternOk
        tauto
      refine ⟨?_, fun _ => rfl⟩
      constructor
      · intro ⟨fl, hf⟩
        simp at hf
      · intro hacc
        exact absurd hacc.1 hlno

theorem lt_ceilDiv_iff {n : Nat} (a i : Nat) (hn : 0 < n) :
    i < (a + n - 1) / n ↔ n * i < a := by
  have h1 : i < (a + n - 1) / n ↔ i + 1 ≤ (a + n - 1) / n := Iff.rfl
  rw [h1, Nat.le_div_iff_mul_le hn]
  have h2 : (i + 1) * n = n * i + n := by ring
  rw [h2]
  omega

theorem mem_stepIndices {t up n : Nat} (hn : 0 < n) (m : Nat) :
    m ∈ stepIndices t up n ↔ (t ≤ m ∧ m < up ∧ (m - t) % n = 0) := by
  unfold stepIndices
  rw [List.mem_range']
  constructor
  · intro ⟨i, hi, hm⟩
    rw [lt_ceilDiv_iff _ _ hn] at hi
    subst hm
    refine ⟨Nat.le_add_right _ _, by omega, ?_⟩
    simp [Nat.add_sub_cancel_left, Nat.mul_mod_right]
  · intro ⟨h1, h2, h3⟩
    have hdvd : n ∣ (m - t) := Nat.dvd_iff_mod_eq_zero.mpr h3
    have heq : n * ((m - t) / n) = m - t := Nat.mul_div_cancel' hdvd
    refine ⟨(m - t) / n, ?_, ?_⟩
    · rw [lt_ceilDiv_iff _ _ hn, heq]
      omega
    · rw [heq]
      omega

theorem nodup_stepIndices (t up n : Nat) (hn : 0 < n) : (stepIndices t up n).Nodup :=
  List.nodup_range' _ _ _ hn

/-- `parRange 0 up n` visits every index in `0..up` exactly once (the interleaved
partition is a permutation of the range) for any `n ≥ 2`. -/
theorem parRange_zero_perm (up n : Nat) (hn : 2 ≤ n) :
    (parRange 0 up n).Perm (List.range up) := by
  have hn0 : 0 < n := by omega
  have hne : (n == 1) = false := by
    have : n ≠ 1 := by omega
    simpa using this
  unfold parRange
  rw [hne]
  simp only [Bool.false_eq_true, if_false]
  have hmem : ∀ m, m ∈ (List.range n).flatMap (fun t => stepIndices t up n) ↔ m ∈ List.range up := by
    intro m
    rw [List.mem_flatMap, List.mem_range]
    constructor
    · intro ⟨t, _, hms⟩
      exact ((mem_stepIndices hn0 m).mp hms).2.1
    · intro hm
      refine ⟨m % n, List.mem_range.mpr (Nat.mod_lt _ hn0), ?_⟩
      rw [mem_stepIndices hn0]
      refine ⟨Nat.mod_le _ _, hm, ?_⟩
      have hdm := Nat.div_add_mod m n
      have hsub : m - m % n = n * (m / n) := by
        generalize n * (m / n) = w at hdm ⊢
        omega
      rw [hsub, Nat.mul_mod_right]
  have hnodup : ((List.range n).flatMap (fun t => stepIndices t up n)).Nodup := by
    rw [List.nodup_flatMap]
    refine ⟨fun t _ => nodup_stepIndices t up n hn0, ?_⟩
    rw [List.pairwise_iff_getElem]
    intro i j hi hj hij
    simp only [List.getElem_range] at hi hj ⊢
    intro m hmi hmj
    have h1 := (mem_stepIndices hn0 m).mp hmi
    have h2 := (mem_stepIndices hn0 m).mp hmj
    have hi' : (m - i) % n = 0 := h1.2.2
    have hj' : (m - j) % n = 0 := h2.2.2
    have hilt : i < n := by simpa using hi
    have hjlt : j < n := by simpa using hj
    have hile : i ≤ m := h1.1
    have hjle : j ≤ m := h2.1
    have hmod_i : m % n = i % n := by
      have hq : (m - i) / n * n = m - i := Nat.div_mul_cancel (Nat.dvd_iff_mod_eq_zero.mpr hi')
      have hmi : m = i + (m - i) / n * n := by
        rw [hq]
        omega
      rw [hmi, Nat.add_mul_mod_self_right]
    have hmod_j : m % n = j % n := by
      have hq : (m - j) / n * n = m - j := Nat.div_mul_cancel (Nat.dvd_iff_mod_eq_zero.mpr hj')
      have hmj : m = j + (m - j) / n * n := by
        rw [hq]
        omega
      rw [hmj, Nat.add_mul_mod_self_right]
    have : i = j := by
      rw [Nat.mod_eq_of_lt hilt] at hmod_i
      rw [Nat.mod_eq_of_lt hjlt] at hmod_j
      omega
    omega
  rw [List.perm_ext_iff_of_nodup hnodup (List.nodup_range up)]
  exact hmem

/-- C4 evaluation: `par_range` does **not** restrict the parallel branch to
`lo..up`.  At `lo = 1, up = 2, n_threads = 2` the work function is invoked at
index 0, which lies outside `lo..up = [1]`; the `n_threads == 1` branch runs
exactly `lo..up` inline; and for `lo = 0` the parallel branch is a permutation
of `0..up` (each index exactly once), confirming the rest of the claim. -/
theorem parRange_invokes_outside_lo :
    parRange 1 2 2 = [0, 1]
      ∧ (0 ∉ List.range' 1 1)
      ∧ (∀ lo up : Nat, parRange lo up 1 = List.range' lo (up - lo))
      ∧ (∀ up n : Nat, 2 ≤ n → (parRange 0 up n).Perm (List.range up)) := by
  refine ⟨by decide, by decide, fun lo up => rfl, parRange_zero_perm⟩

/-- Witness for the storage dispatch theorem: concrete mixed-device,
mixed-dtype, and well-matched CPU calls. -/
theorem storage_binary_matmul_dispatch_witness :
    (Storage.binaryImpl "add" (fun l _ _ _ _ => .ok l) (fun l _ _ _ _ => .ok l)
          (.cpu ⟨.f32, 0⟩) (.cuda ⟨.f32, 1, 2⟩) [] [] []
        = .error (.deviceMismatchBinaryOp .cpu (.cuda 1) "add")
      ∧ Storage.matmulImpl (fun l _ _ _ _ => .ok l) (fun l _ _ _ _ => .ok l)
          (.cpu ⟨.f32, 0⟩) (.cuda ⟨.f32, 1, 2⟩) (1, 2, 3, 4) [] []
        = .error (.deviceMismatchBinaryOp .cpu (.cuda 1) "matmul"))
      ∧ (Storage.binaryImpl "add" (fun l _ _ _ _ => .ok l) (fun l _ _ _ _ => .ok l)
            (.cpu ⟨.f32, 0⟩) (.cpu ⟨.f64, 2⟩) [] [] []
          = .error (.dtypeMismatchBinaryOp .f32 .f64 "add")
        ∧ Storage.matmulImpl (fun l _ _ _ _ => .ok l) (fun l _ _ _ _ => .ok l)
            (.cpu ⟨.f32, 0⟩) (.cpu ⟨.f64, 2⟩) (1, 2, 3, 4) [] []
          = .error (.dtypeMismatchBinaryOp .f32 .f64 "matmul"))
      ∧ ((∃ l r, (Storage.cpu ⟨.f32, 0⟩) = .cpu l ∧ (Storage.cpu ⟨.f32, 2⟩) = .cpu r
            ∧ Storage.binaryImpl "add" (fun l _ _ _ _ => .ok l) (fun l _ _ _ _ => .ok l)
                (.cpu ⟨.f32, 0⟩) (.cpu ⟨.f32, 2⟩) [] [] []
              = ((fun (l : CpuStorage) (_ : CpuStorage) (_ _ _ : List Nat) =>
                  (.ok l : Except CError CpuStorage)) l r [] [] []).map Storage.cpu
            ∧ Storage.matmulImpl (fun l _ _ _ _ => .ok l) (fun l _ _ _ _ => .ok l)
                (.cpu ⟨.f32, 0⟩) (.cpu ⟨.f32, 2⟩) (1, 2, 3, 4) [] []
              = ((fun (l : CpuStorage) (_ : CpuStorage) (_ : Nat × Nat × Nat × Nat)
                  (_ _ : List Nat) => (.ok l : Except CError CpuStorage)) l r (1, 2, 3, 4)
                  [] []).map Storage.cpu)
          ∨ (∃ l r, (Storage.cpu ⟨.f32, 0⟩) = .cuda l ∧ (Storage.cpu ⟨.f32, 2⟩) = .cuda r
            ∧ Storage.binaryImpl "add" (fun l _ _ _ _ => .ok l) (fun l _ _ _ _ => .ok l)
                (.cpu ⟨.f32, 0⟩) (.cpu ⟨.f32, 2⟩) [] [] []
              = ((fun (l : CudaStorage) (_ : CudaStorage) (_ _ _ : List Nat) =>
                  (.ok l : Except CError CudaStorage)) l r [] [] []).map Storage.cuda
            ∧ Storage.matmulImpl (fun l _ _ _ _ => .ok l) (fun l _ _ _ _ => .ok l)
                (.cpu ⟨.f32, 0⟩) (.cpu ⟨.f32, 2⟩) (1, 2, 3, 4) [] []
              = ((fun (l : CudaStorage) (_ : CudaStorage) (_ : Nat × Nat × Nat × Nat)
                  (_ _ : List Nat) => (.ok l : Except CError CudaStorage)) l r (1, 2, 3, 4)
                  [] []).map Storage.cuda)) := by
  refine ⟨?_, ?_, ?_⟩
  · exact (storage_binary_matmul_dispatch "add" _ _ _ _ _ _ [] [] [] (1, 2, 3, 4)).1
      (by decide)
  · exact (storage_binary_matmul_dispatch "add" _ _ _ _ _ _ [] [] [] (1, 2, 3, 4)).2.1
      (by decide) (by decide)
  · exact (storage_binary_matmul_dispatch "add" _ _ _ _ _ _ [] [] [] (1, 2, 3, 4)).2.2
      rfl rfl

/-- Witness for the Metal matmul stride-pattern theorem: a row-major pair is
accepted and encodes one kernel; a non-standard left stride is rejected with
the buffer untouched. -/
theorem metal_matmul_stride_pattern_check_witness :
    ((∃ flags, metalMatmul .f32 1 2 3 4 [4, 1] [3, 1] [] = (.ok flags, [] ++ ["matmul"]))
        ↔ lhsPatternOk [4, 1] 2 4 ∧ rhsPatternOk [3, 1] 3 4)
      ∧ metalMatmul .f32 1 2 3 4 [5, 7] [3, 1] []
        = (.err (.matMulNonContiguous [5, 7] [3, 1] (2, 3, 4)), []) := by
  refine ⟨(metal_matmul_stride_pattern_check .f32 (Or.inl rfl) 1 2 3 4 [4, 1] [3, 1]
      (by decide) (by decide) []).1, ?_⟩
  refine (metal_matmul_stride_pattern_check .f32 (Or.inl rfl) 1 2 3 4 [5, 7] [3, 1]
      (by decide) (by decide) []).2 ?_
  intro h
  rcases h.1 with ⟨h1, _⟩ | ⟨h1, _⟩ <;> simp [List.getD] at h1

/-- Witness for the buffer-pool theorem: a pool with one referenced buffer
allocates fresh; a pool holding an unreferenced buffer reuses it. -/
theorem metal_new_buffer_pool_reuse_witness :
    newBufferPooled [((16, 0), [⟨5, 3⟩])] (16, 0) 99
        = (.fresh 99, poolSet [((16, 0), [⟨5, 3⟩])] (16, 0)
            (poolLookup [((16, 0), [⟨5, 3⟩])] (16, 0) ++ [⟨99, 2⟩]))
      ∧ (∃ id, (newBufferPooled [((16, 0), [⟨6, 1⟩])] (16, 0) 99).1 = .reused id) := by
  constructor
  · exact (metal_new_buffer_pool_reuse [((16, 0), [⟨5, 3⟩])] (16, 0) 99).2.1 (by decide)
  · exact (metal_new_buffer_pool_reuse [((16, 0), [⟨6, 1⟩])] (16, 0) 99).2.2 ⟨6, 1⟩
      (by decide) (by decide)

/-- Witness for the `par_range` theorem: the interleaved partition at
`up = 5, n_threads = 3` is a permutation of `0..5`. -/
theorem parRange_invokes_outside_lo_witness :
    (parRange 0 5 3).Perm (List.range 5) :=
  parRange_invokes_outside_lo.2.2.2 5 3 (by decide)

/-- The insertion predicate decided by `binary_search`: `v < x` for
right-insertion (first element strictly greater), `v ≤ x` for left-insertion
(first element greater or equal). -/
def bsPred {α : Type} [LinearOrder α] (v : α) (right : Bool) (x : α) : Bool :=
  if right then decide (v < x) else decide (v ≤ x)

theorem bsPred_mono {α : Type} [LinearOrder α] (v : α) (right : Bool) {x y : α}
    (hxy : x ≤ y) (hx : bsPred v right x = true) : bsPred v right y = true := by
  cases right <;> simp only [bsPred, if_true, if_false, Bool.false_eq_true, reduceIte,
    decide_eq_true_eq] at hx ⊢
  · exact le_trans hx hxy
  · exact lt_of_lt_of_le hx hxy

theorem bsearchGo_pred_eq {α : Type} [LinearOrder α] (v : α) (right : Bool) (x : α) :
    (if right then !(decide (v < x)) else !(decide (v ≤ x))) = !(bsPred v right x) := by
  cases right <;> rfl

theorem findIdx_eq_of {α : Type} (p : α → Bool) (d : α) (xs : List α) (n : Nat)
    (hn : n ≤ xs.length)
    (hlow : ∀ j, j < n → p (xs.getD j d) = false)
    (hhigh : ∀ j, n ≤ j → j < xs.length → p (xs.getD j d) = true) :
    xs.findIdx p = n := by
  induction xs generalizing n with
  | nil =>
      have : n = 0 := by simpa using hn
      subst this
      rfl
  | cons x t ih =>
      cases n with
      | zero =>
          have hx : p x = true := by
            have := hhigh 0 (Nat.le_refl 0) (by simp)
            simpa using this
          simp [List.findIdx_cons, hx]
      | succ n =>
          have hx : p x = false := by
            have := hlow 0 (Nat.succ_pos n)
            simpa using this
          rw [List.findIdx_cons, hx]
          simp only [cond_false]
          have hrec : t.findIdx p = n := by
            refine ih n (by simpa using hn) ?_ ?_
            · intro j hj
              have := hlow (j + 1) (by omega)
              simpa [List.getD_cons_succ] using this
            · intro j hj hjl
              have := hhigh (j + 1) (by omega) (by simpa using hjl)
              simpa [List.getD_cons_succ] using this
          omega

theorem sorted_getD_mono {α : Type} [Preorder α] {xs : List α}
    (hs : List.Sorted (· ≤ ·) xs) (d : α) {i j : Nat} (hij : i ≤ j) (hj : j < xs.length) :
    xs.getD i d ≤ xs.getD j d := by
  rcases Nat.lt_or_ge i j with hlt | hge
  · have hi : i < xs.length := lt_trans hlt hj
    rw [List.getD_eq_getElem _ _ hi, List.getD_eq_getElem _ _ hj]
    exact List.pairwise_iff_getElem.mp hs i j hi hj hlt
  · have : i = j := Nat.le_antisymm hij hge
    subst this
    exact le_refl _

theorem bsearchGo_eq_findIdx {α : Type} [LinearOrder α] (xs : List α) (v : α) (right : Bool)
    (hs : List.Sorted (· ≤ ·) xs) :
    ∀ fuel start e, e - start = fuel → start ≤ e → e ≤ xs.length →
      (∀ j, j < start → bsPred v right (xs.getD j v) = false) →
      (∀ j, e ≤ j → j < xs.length → bsPred v right (xs.getD j v) = true) →
      bsearchGo xs v right start e = xs.findIdx (bsPred v right) := by
  intro fuel
  induction fuel using Nat.strong_induction_on with
  | _ fuel ih =>
      intro start e hfuel hse he hlow hhigh
      rw [bsearchGo]
      by_cases hlt : start < e
      · rw [dif_pos hlt]
        simp only [bsearchGo_pred_eq]
        have hmid1 : start ≤ start + (e - start) / 2 := Nat.le_add_right _ _
        have hmid2 : start + (e - start) / 2 < e := by omega
        cases hpm : bsPred v right (xs.getD (start + (e - start) / 2) v) with
        | false =>
            rw [if_pos (show (!false) = true from rfl)]
            refine ih (e - (start + (e - start) / 2 + 1)) (by omega) _ _ rfl (by omega) he ?_ hhigh
            intro j hj
            by_cases hjs : j < start
            · exact hlow j hjs
            · cases hb : bsPred v right (xs.getD j v) with
              | false => rfl
              | true =>
                  have hmono := bsPred_mono v right
                    (sorted_getD_mono hs v (show j ≤ start + (e - start) / 2 by omega)
                      (by omega)) hb
                  rw [hmono] at hpm
                  cases hpm
        | true =>
            rw [if_neg (show ¬ (!true) = true by simp)]
            refine ih ((start + (e - start) / 2) - start) (by omega) _ _ rfl (by omega)
              (by omega) hlow ?_
            intro j hj hjl
            exact bsPred_mono v right (sorted_getD_mono hs v hj hjl) hpm
      · rw [dif_neg hlt]
        have : start = e := by omega
        subst this
        exact (findIdx_eq_of _ v xs start he hlow
          (fun j hj hjl => hhigh j hj hjl)).symm

theorem binarySearch_eq_findIdx {α : Type} [LinearOrder α] (xs : List α) (v : α)
    (right : Bool) (hs : List.Sorted (· ≤ ·) xs) :
    binarySearch xs v right = xs.findIdx (bsPred v right) := by
  unfold binarySearch
  exact bsearchGo_eq_findIdx xs v right hs (xs.length - 0) 0 xs.length rfl
    (Nat.zero_le _) (Nat.le_refl _) (fun j hj => absurd hj (Nat.not_lt_zero j))
    (fun j hj hjl => absurd hjl (Nat.not_lt.mpr hj))

/-- C10: for every sorted slice, `binary_search` returns the left insertion
point (the first position whose element is `>=` the probe) when `right` is
false and the right insertion point (first position whose element is `>` the
probe) when `right` is true; on the sorted sequence `[1,3,5,7,9]` the probes
`[3,6,9]` yield `[1,3,4]` (left) and `[2,3,5]` (right). -/
theorem binary_search_insertion_points :
    (∀ (α : Type) [inst : LinearOrder α] (xs : List α) (v : α) (right : Bool),
        List.Sorted (· ≤ ·) xs →
          binarySearch xs v right = xs.findIdx (bsPred v right))
      ∧ ([3, 6, 9] : List Int).map (fun v => binarySearch [1, 3, 5, 7, 9] v false) = [1, 3, 4]
      ∧ ([3, 6, 9] : List Int).map (fun v => binarySearch [1, 3, 5, 7, 9] v true) = [2, 3, 5] := by
  have hsorted : List.Sorted (· ≤ ·) ([1, 3, 5, 7, 9] : List Int) := by decide
  refine ⟨fun α inst xs v right hs => binarySearch_eq_findIdx xs v right hs, ?_, ?_⟩
  · simp only [List.map]
    rw [binarySearch_eq_findIdx _ _ _ hsorted, binarySearch_eq_findIdx _ _ _ hsorted,
      binarySearch_eq_findIdx _ _ _ hsorted]
    decide
  · simp only [List.map]
    rw [binarySearch_eq_findIdx _ _ _ hsorted, binarySearch_eq_findIdx _ _ _ hsorted,
      binarySearch_eq_findIdx _ _ _ hsorted]
    decide

/-- Witness for the binary-search theorem at concrete values: the probe 6 in
the sorted sequence `[1,3,5,7,9]`. -/
theorem binary_search_insertion_points_witness :
    binarySearch ([1, 3, 5, 7, 9] : List Int) 6 false
        = ([1, 3, 5, 7, 9] : List Int).findIdx (bsPred 6 false)
      ∧ binarySearch ([1, 3, 5, 7, 9] : List Int) 6 true
        = ([1, 3, 5, 7, 9] : List Int).findIdx (bsPred 6 true) :=
  ⟨binary_search_insertion_points.1 Int [1, 3, 5, 7, 9] 6 false (by decide),
   binary_search_insertion_points.1 Int [1, 3, 5, 7, 9] 6 true (by decide)⟩

/-! ### Concatenation: success-path characterizations -/

/-- The output shape of `cat0` as the claim states it: the first input's shape
with dimension 0 replaced by the sum of all inputs' dimension-0 sizes. -/
def catOutDims {α : Type} (a0 : Tensor α) (args : List (Tensor α)) : List Nat :=
  a0.dims.set 0 ((args.map (fun a => a.dims.headD 0)).sum)

/-- `sumsBefore xs` has at position `i` the sum of the first `i` entries of
`xs`: the element offsets of the claim ("sum of the element counts of all
preceding inputs"). -/
def sumsBefore (xs : List Nat) : List Nat :=
  (List.range xs.length).map (fun i => (xs.take i).sum)

/-- Running offsets as accumulated by `cat0`'s loop, starting after `last`. -/
def stepOffsets (last : Nat) : List Nat → List Nat
  | [] => []
  | x :: xs => (last + x) :: stepOffsets (last + x) xs

theorem cat0ZipCheck_refl (fS nS : List Nat) (n : Nat) :
    ∀ (xs : List Nat) (i c : Nat), i ≠ 0 → cat0ZipCheck fS nS n xs xs i c = .ok c := by
  intro xs
  induction xs with
  | nil => intro i c _; rfl
  | cons x t ih =>
      intro i c hi
      have h0 : (i == 0) = false := by simpa using hi
      simp only [cat0ZipCheck, h0, Bool.false_eq_true, if_false, ne_eq, not_true_eq_false,
        and_false]
      exact ih (i + 1) c (Nat.succ_ne_zero i)

theorem cat0ZipCheck_cons0 (fS nS : List Nat) (n f0 b0 : Nat) (fs : List Nat) (c : Nat) :
    cat0ZipCheck fS nS n (f0 :: fs) (b0 :: fs) 0 c = .ok (c + b0) := by
  simp only [cat0ZipCheck, beq_self_eq_true, if_true, ne_eq, not_true_eq_false,
    false_and, if_false]
  exact cat0ZipCheck_refl fS nS n fs 1 (c + b0) Nat.one_ne_zero

theorem cat0Loop_ok {α : Type} (dtype : DType) (device : DeviceLocation)
    (f0 : Nat) (ft : List Nat) :
    ∀ (args : List (Tensor α)) (idx c last : Nat) (offs : List Nat),
      (∀ a ∈ args, a.dtype = dtype ∧ a.device = device ∧ a.dims = a.dims.headD 0 :: ft) →
      cat0Loop dtype device (f0 :: ft).length (f0 :: ft) args idx c last offs
        = .ok (c + (args.map (fun a => a.dims.headD 0)).sum,
            offs ++ stepOffsets last (args.map Tensor.elemCount)) := by
  intro args
  induction args with
  | nil =>
      intro idx c last offs _
      simp [cat0Loop, stepOffsets]
  | cons a rest ih =>
      intro idx c last offs h
      obtain ⟨hdt, hdev, hdims⟩ := h a (List.mem_cons_self a rest)
      have hrank : a.rank = (f0 :: ft).length := by
        rw [Tensor.rank, hdims]
        simp
      simp only [cat0Loop, ne_eq]
      rw [if_neg (by simp [hdt]), if_neg (by simp [hdev]), if_neg (by simp [hrank])]
      rw [show cat0ZipCheck (f0 :: ft) a.dims (idx + 1) (f0 :: ft) a.dims 0 c
          = .ok (c + a.dims.headD 0) from by
        conv_lhs => rw [hdims]
        exact cat0ZipCheck_cons0 _ _ _ f0 _ ft c]
      simp only []
      rw [ih (idx + 1) (c + a.dims.headD 0) (last + a.elemCount) (offs ++ [last + a.elemCount])
        (fun b hb => h b (List.mem_cons_of_mem a hb))]
      simp [stepOffsets, Nat.add_assoc]

/-- The output tensor the claim describes: fresh zero-initialized contiguous
storage of the concatenated shape, filled by folding `copy_strided_src` over the
inputs paired with their element offsets. -/
def catExpected {α : Type} (z : α) (a0 : Tensor α) (args : List (Tensor α))
    (offsets : List Nat) : Tensor α where
  data := (args.zip offsets).foldl
    (fun st p => copyStridedSrc z p.1.data st p.2 p.1.dims p.1.stride p.1.offset)
    (List.replicate (catOutDims a0 args).prod z)
  dims := catOutDims a0 args
  stride := contigStride (catOutDims a0 args)
  offset := 0
  dtype := a0.dtype
  device := a0.device

theorem cat0_ok {α : Type} (z : α) (a0 : Tensor α) (rest1 : List (Tensor α))
    (hne : rest1 ≠ []) (f0 : Nat) (ft : List Nat) (h0 : a0.dims = f0 :: ft)
    (h : ∀ a ∈ a0 :: rest1,
        a.dtype = a0.dtype ∧ a.device = a0.device ∧ a.dims = a.dims.headD 0 :: ft) :
    cat0 z (a0 :: rest1)
      = .ok (catExpected z a0 (a0 :: rest1)
          (0 :: stepOffsets 0 ((a0 :: rest1).map Tensor.elemCount))) := by
  have hloop := cat0Loop_ok a0.dtype a0.device f0 ft (a0 :: rest1) 0 0 0 [0] h
  have hrank : a0.rank = (f0 :: ft).length := by rw [Tensor.rank, h0]
  have hisE : (rest1.isEmpty = true) = False := by
    simp [List.isEmpty_iff, hne]
  simp only [cat0, hisE, if_false]
  rw [show Tensor.rank a0 = (f0 :: ft).length from hrank, h0]
  rw [hloop]
  simp only []
  simp only [catExpected, catOutDims, h0, Nat.zero_add, List.singleton_append]

theorem zip_stepOffsets {β : Type} (f : β → Nat) :
    ∀ (args : List β) (s : Nat),
      args.zip (s :: stepOffsets s (args.map f))
        = args.zip ((List.range args.length).map (fun i => s + ((args.map f).take i).sum)) := by
  intro args
  induction args with
  | nil => intro s; rfl
  | cons a rest ih =>
      intro s
      simp only [List.map_cons, stepOffsets, List.zip_cons_cons, List.length_cons,
        List.range_succ_eq_map, List.map_map, List.take_zero, List.sum_nil, Nat.add_zero]
      congr 1
      rw [ih (s + f a)]
      congr 1
      apply List.map_congr_left
      intro i _
      simp only [Function.comp_apply, List.take_succ_cons, List.sum_cons, Nat.succ_eq_add_one]
      omega

theorem zip_offsets_eq_sumsBefore {β : Type} (f : β → Nat) (args : List β) :
    args.zip (0 :: stepOffsets 0 (args.map f)) = args.zip (sumsBefore (args.map f)) := by
  rw [zip_stepOffsets f args 0]
  unfold sumsBefore
  rw [List.length_map]
  congr 1
  apply List.map_congr_left
  intro i _
  omega

theorem checkDimAll_ok {α : Type} (dim : Nat) :
    ∀ (args : List (Tensor α)), (∀ a ∈ args, dim < a.rank) → checkDimAll dim args = .ok () := by
  intro args
  induction args with
  | nil => intro _; rfl
  | cons a rest ih =>
      intro h
      have ha := h a (List.mem_cons_self a rest)
      simp only [checkDimAll, Tensor.checkDim, if_pos ha]
      exact ih (fun b hb => h b (List.mem_cons_of_mem a hb))

theorem catZipCheck_ok (d : Nat) (fS nS : List Nat) (n : Nat) :
    ∀ (f ad : List Nat) (i : Nat),
      (∀ j, i + j ≠ d → f.getD j 0 = ad.getD j 0) →
      catZipCheck d fS nS n f ad i = .ok () := by
  intro f
  induction f with
  | nil => intro ad i _; cases ad <;> rfl
  | cons v1 fs ih =>
      intro ad i h
      cases ad with
      | nil => rfl
      | cons v2 ns =>
          have hcond : ¬ (i ≠ d ∧ v1 ≠ v2) := by
            intro ⟨hid, hv⟩
            have := h 0 (by omega)
            simp only [List.getD_cons_zero] at this
            exact hv this
          simp only [catZipCheck, if_neg hcond]
          refine ih ns (i + 1) ?_
          intro j hj
          have := h (j + 1) (by omega)
          simpa [List.getD_cons_succ] using this

theorem catCheckLoop_ok {α : Type} (rank0 : Nat) (fd : List Nat) (d : Nat) :
    ∀ (args : List (Tensor α)) (idx : Nat),
      (∀ a ∈ args, rank0 = a.rank ∧ ∀ j, j ≠ d → fd.getD j 0 = a.dims.getD j 0) →
      catCheckLoop rank0 fd d args idx = .ok () := by
  intro args
  induction args with
  | nil => intro _ _; rfl
  | cons a rest ih =>
      intro idx h
      obtain ⟨hrk, hdims⟩ := h a (List.mem_cons_self a rest)
      simp only [catCheckLoop, ne_eq]
      rw [if_neg (by simp [hrk])]
      rw [catZipCheck_ok d fd a.dims (idx + 1) fd a.dims 0 (fun j hj => hdims j (by omega))]
      exact ih (idx + 1) (fun b hb => h b (List.mem_cons_of_mem a hb))

theorem tail_eq_of_getD_agree {xs ys : List Nat} (hlen : xs.length = ys.length)
    (h : ∀ i, i ≠ 0 → xs.getD i 0 = ys.getD i 0) : xs.tail = ys.tail := by
  cases xs with
  | nil =>
      cases ys with
      | nil => rfl
      | cons y yt => simp at hlen
  | cons x xt =>
      cases ys with
      | nil => simp at hlen
      | cons y yt =>
          simp only [List.tail_cons]
          apply List.ext_getElem (by simpa using hlen)
          intro i h1 h2
          have hi := h (i + 1) (Nat.succ_ne_zero i)
          rw [List.getD_cons_succ, List.getD_cons_succ] at hi
          rw [← List.getD_eq_getElem xt 0 h1, ← List.getD_eq_getElem yt 0 h2]
          exact hi

/-- Pointwise agreement on the in-range non-zero dimensions extends to all
indices when the ranks agree (out-of-range `getD` reads are the default on both
sides). -/
theorem getD_agree_of_lt {α : Type} (d : Nat) {a0 a : Tensor α} (hrk : a.rank = a0.rank)
    (h : ∀ j, j < a0.rank → j ≠ d → a.dims.getD j 0 = a0.dims.getD j 0) :
    ∀ j, j ≠ d → a.dims.getD j 0 = a0.dims.getD j 0 := by
  intro j hj
  by_cases hlt : j < a0.rank
  · exact h j hlt hj
  · have h2 : a0.dims.length ≤ j := by
      have : a0.rank ≤ j := by omega
      exact this
    have h1 : a.dims.length ≤ j := by
      have : a.rank ≤ j := by rw [hrk]; omega
      exact this
    rw [List.getD_eq_default _ _ h1, List.getD_eq_default _ _ h2]

theorem dims_cons_of_agree {α : Type} {a0 a : Tensor α} (hr0 : 0 < a0.rank)
    (hrk : a.rank = a0.rank)
    (hag : ∀ j, j ≠ 0 → a.dims.getD j 0 = a0.dims.getD j 0) :
    a.dims = a.dims.headD 0 :: a0.dims.tail := by
  have hlen : a.dims.length = a0.dims.length := hrk
  have htail : a.dims.tail = a0.dims.tail := tail_eq_of_getD_agree hlen hag
  have hne : a.dims ≠ [] := by
    intro hc
    rw [Tensor.rank, hlen] at hrk
    have : 0 < a.dims.length := by omega
    rw [hc] at this
    simp at this
  cases hd : a.dims with
  | nil => exact absurd hd hne
  | cons x xt =>
      rw [hd] at htail
      simp only [List.tail_cons] at htail
      simp [htail]

/-- C1: for a validated list of two or more tensors, `cat` along dimension 0
returns a tensor whose shape is the first input's shape with dimension 0
replaced by the sum of all dimension-0 sizes, whose layout is fresh contiguous
(canonical stride, zero offset), and whose storage is obtained from
zero-initialized storage of that shape by copying each input in list order via
`copy_strided_src` at the element offset equal to the sum of the element counts
of all preceding inputs. -/
theorem cat_dim0_spec {α : Type} (z : α) (a0 : Tensor α) (rest1 : List (Tensor α))
    (hne : rest1 ≠ []) (hr0 : 0 < a0.rank)
    (hval : ∀ a ∈ a0 :: rest1, a.dtype = a0.dtype ∧ a.device = a0.device
        ∧ a.rank = a0.rank ∧ ∀ j, j < a0.rank → j ≠ 0 → a.dims.getD j 0 = a0.dims.getD j 0) :
    cat z (a0 :: rest1) 0
      = .ok (catExpected z a0 (a0 :: rest1)
          (sumsBefore ((a0 :: rest1).map Tensor.elemCount))) := by
  have hisE : (rest1.isEmpty = true) = False := by simp [List.isEmpty_iff, hne]
  have hr0l : 0 < a0.dims.length := hr0
  have ht : toIndex a0.dims 0 "cat" = .ok 0 := by
    unfold toIndex
    rw [if_pos hr0l]
  have hcd : checkDimAll 0 (a0 :: rest1) = .ok () := by
    refine checkDimAll_ok 0 _ ?_
    intro a ha
    have := (hval a ha).2.2.1
    omega
  have hcl : catCheckLoop a0.rank a0.dims 0 (a0 :: rest1) 0 = .ok () := by
    refine catCheckLoop_ok a0.rank a0.dims 0 _ 0 ?_
    intro a ha
    refine ⟨((hval a ha).2.2.1).symm, fun j hj => ?_⟩
    exact (getD_agree_of_lt 0 (hval a ha).2.2.1 (hval a ha).2.2.2 j hj).symm
  obtain ⟨f0, ft, h0⟩ : ∃ f0 ft, a0.dims = f0 :: ft := by
    cases hd : a0.dims with
    | nil =>
        rw [Tensor.rank, hd] at hr0
        simp at hr0
    | cons x xt => exact ⟨x, xt, rfl⟩
  have hc0 : cat0 z (a0 :: rest1)
      = .ok (catExpected z a0 (a0 :: rest1)
          (0 :: stepOffsets 0 ((a0 :: rest1).map Tensor.elemCount))) := by
    refine cat0_ok z a0 rest1 hne f0 ft h0 ?_
    intro a ha
    obtain ⟨hdt, hdev, hrk, hag⟩ := hval a ha
    refine ⟨hdt, hdev, ?_⟩
    have := dims_cons_of_agree hr0 hrk (getD_agree_of_lt 0 hrk hag)
    rw [this]
    congr 1
    rw [h0]
    rfl
  simp only [cat, hisE, if_false, ht, hcd, hcl, beq_self_eq_true, if_true]
  rw [hc0]
  simp only [catExpected]
  rw [zip_offsets_eq_sumsBefore Tensor.elemCount (a0 :: rest1)]

/-- Witness for the dim-0 concatenation theorem: two `2 x 3` tensors. -/
theorem cat_dim0_spec_witness :
    cat (0 : Int)
        [⟨[1, 2, 3, 4, 5, 6], [2, 3], [3, 1], 0, .f32, .cpu⟩,
         ⟨[7, 8, 9, 10, 11, 12], [2, 3], [3, 1], 0, .f32, .cpu⟩] 0
      = .ok (catExpected 0 ⟨[1, 2, 3, 4, 5, 6], [2, 3], [3, 1], 0, .f32, .cpu⟩
          [⟨[1, 2, 3, 4, 5, 6], [2, 3], [3, 1], 0, .f32, .cpu⟩,
           ⟨[7, 8, 9, 10, 11, 12], [2, 3], [3, 1], 0, .f32, .cpu⟩]
          (sumsBefore
            ([⟨[1, 2, 3, 4, 5, 6], [2, 3], [3, 1], 0, .f32, .cpu⟩,
              (⟨[7, 8, 9, 10, 11, 12], [2, 3], [3, 1], 0, .f32, .cpu⟩ : Tensor Int)].map
              Tensor.elemCount))) := by
  refine cat_dim0_spec 0 _ _ (by simp) (by decide) ?_
  intro a ha
  fin_cases ha <;> exact ⟨rfl, rfl, rfl, by decide⟩

/-! ### Concatenation along a non-zero dimension (transpose refinement) -/

theorem listSwap_length (xs : List Nat) (i j : Nat) :
    (listSwap xs i j).length = xs.length := by
  simp [listSwap]

theorem getD_listSwap (xs : List Nat) (i j : Nat) (hi : i < xs.length) (hj : j < xs.length)
    (p : Nat) :
    (listSwap xs i j).getD p 0
      = if p = j then xs.getD i 0 else if p = i then xs.getD j 0 else xs.getD p 0 := by
  unfold listSwap
  rw [List.getD_eq_getElem?_getD, List.getElem?_set, List.length_set]
  by_cases hpj : j = p
  · rw [if_pos hpj, if_pos hj, if_pos hpj.symm]
    simp
  · rw [if_neg hpj, List.getElem?_set, if_neg (fun hc : p = j => hpj hc.symm)]
    by_cases hpi : i = p
    · rw [if_pos hpi, if_pos hi, if_pos hpi.symm]
      simp
    · rw [if_neg hpi, if_neg (fun hc : p = i => hpi hc.symm),
        List.getD_eq_getElem?_getD]

theorem list_eq_of_getD {xs ys : List Nat} (hlen : xs.length = ys.length)
    (h : ∀ p, xs.getD p 0 = ys.getD p 0) : xs = ys := by
  apply List.ext_getElem hlen
  intro i h1 h2
  rw [← List.getD_eq_getElem xs 0 h1, ← List.getD_eq_getElem ys 0 h2]
  exact h i

theorem listSwap_involutive (xs : List Nat) (i j : Nat) (hi : i < xs.length)
    (hj : j < xs.length) : listSwap (listSwap xs i j) i j = xs := by
  have hi' : i < (listSwap xs i j).length := by simpa [listSwap_length] using hi
  have hj' : j < (listSwap xs i j).length := by simpa [listSwap_length] using hj
  apply list_eq_of_getD (by simp [listSwap_length])
  intro p
  rw [getD_listSwap _ i j hi' hj' p]
  by_cases hpj : p = j
  · rw [if_pos hpj, getD_listSwap xs i j hi hj i]
    by_cases hij : i = j
    · rw [if_pos hij, hpj, ← hij]
    · rw [if_neg hij, if_pos rfl, hpj]
  · rw [if_neg hpj]
    by_cases hpi : p = i
    · rw [if_pos hpi, getD_listSwap xs i j hi hj j, if_pos rfl, hpi]
    · rw [if_neg hpi, getD_listSwap xs i j hi hj p, if_neg hpj, if_neg hpi]

theorem rank_swapDims {α : Type} (t : Tensor α) (i j : Nat) :
    (t.swapDims i j).rank = t.rank := by
  simp [Tensor.swapDims, Tensor.rank, listSwap_length]

theorem swapDims_involutive {α : Type} (t : Tensor α) (i j : Nat)
    (hi : i < t.rank) (hj : j < t.rank) (hs : t.stride.length = t.rank) :
    (t.swapDims i j).swapDims i j = t := by
  obtain ⟨data, dims, stride, off, dt, dev⟩ := t
  simp only [Tensor.swapDims]
  have hdims : dims.length = Tensor.rank ⟨data, dims, stride, off, dt, dev⟩ := rfl
  congr 1
  · exact listSwap_involutive dims i j (by rw [hdims]; exact hi) (by rw [hdims]; exact hj)
  · refine listSwap_involutive stride i j ?_ ?_
    · rw [hs]
      exact hi
    · rw [hs]
      exact hj

theorem transpose_ok {α : Type} {t : Tensor α} {i j : Nat} (hi : i < t.rank)
    (hj : j < t.rank) : t.transpose i j = .ok (t.swapDims i j) := by
  unfold Tensor.transpose
  rw [if_pos hi, if_pos hj]

theorem mapM_transpose_ok {α : Type} (d : Nat) :
    ∀ (args : List (Tensor α)), (∀ a ∈ args, 0 < a.rank ∧ d < a.rank) →
      args.mapM (fun a => a.transpose 0 d) = .ok (args.map (fun a => a.swapDims 0 d)) := by
  intro args
  induction args with
  | nil => intro _; rfl
  | cons a rest ih =>
      intro h
      obtain ⟨h0, hd⟩ := h a (List.mem_cons_self a rest)
      rw [List.mapM_cons, transpose_ok h0 hd, ih (fun b hb => h b (List.mem_cons_of_mem a hb))]
      rfl

theorem cat_at_zero_eq_cat0 {α : Type} (z : α) (t0 : Tensor α) (trest : List (Tensor α))
    (h0r : 0 < t0.rank)
    (hranks : ∀ t ∈ t0 :: trest, t.rank = t0.rank)
    (hdims : ∀ t ∈ t0 :: trest, ∀ j, j ≠ 0 → t.dims.getD j 0 = t0.dims.getD j 0) :
    cat z (t0 :: trest) 0 = cat0 z (t0 :: trest) := by
  cases trest with
  | nil => rfl
  | cons r rs =>
      have hisE : (((r :: rs).isEmpty) = true) = False := by simp [List.isEmpty_iff]
      have h0l : 0 < t0.dims.length := h0r
      have ht : toIndex t0.dims 0 "cat" = .ok 0 := by
        unfold toIndex
        rw [if_pos h0l]
      have hcd : checkDimAll 0 (t0 :: r :: rs) = .ok () := by
        refine checkDimAll_ok 0 _ ?_
        intro a ha
        have := hranks a ha
        omega
      have hcl : catCheckLoop t0.rank t0.dims 0 (t0 :: r :: rs) 0 = .ok () := by
        refine catCheckLoop_ok t0.rank t0.dims 0 _ 0 ?_
        intro a ha
        exact ⟨(hranks a ha).symm, fun j hj => (hdims a ha j hj).symm⟩
      simp only [cat, hisE, if_false, ht, hcd, hcl, beq_self_eq_true, if_true]

theorem swap_getD_agree {α : Type} {a0 a : Tensor α} (d : Nat) (hd : d ≠ 0)
    (h0r : 0 < a0.rank) (hd0 : d < a0.rank) (hda : d < a.rank)
    (hrk : a.rank = a0.rank)
    (hag : ∀ q, q < a0.rank → q ≠ d → a.dims.getD q 0 = a0.dims.getD q 0) :
    ∀ j, j ≠ 0 → (a.swapDims 0 d).dims.getD j 0 = (a0.swapDims 0 d).dims.getD j 0 := by
  intro j hj
  have hagu := getD_agree_of_lt d hrk hag
  have hda' : d < a.dims.length := hda
  have h0a : 0 < a.dims.length := by omega
  have hd0' : d < a0.dims.length := hd0
  have h00 : 0 < a0.dims.length := h0r
  simp only [Tensor.swapDims]
  rw [getD_listSwap a.dims 0 d h0a hda' j, getD_listSwap a0.dims 0 d h00 hd0' j]
  by_cases hjd : j = d
  · rw [if_pos hjd, if_pos hjd]
    exact hagu 0 (fun hc => hd hc.symm)
  · rw [if_neg hjd, if_neg hjd, if_neg hj, if_neg hj]
    exact hagu j hjd

theorem exceptBind_ok {ε β γ : Type} (a : β) (f : β → Except ε γ) :
    (Except.ok a : Except ε β) >>= f = f a := rfl

theorem exceptBind_err {ε β γ : Type} (e : ε) (f : β → Except ε γ) :
    (Except.error e : Except ε β) >>= f = .error e := rfl

/-- C3: for every valid list of tensors and every in-range dimension `d != 0`,
`cat(tensors, d)` equals transposing every input with `transpose(0, d)`,
concatenating the transposed tensors along dimension 0, and transposing the
result back with `transpose(0, d)`.  (The stride-length hypothesis is the
layout invariant `stride.len() == rank` that every real tensor satisfies.) -/
theorem cat_nonzero_dim_refines_transpose {α : Type} (z : α) (a0 : Tensor α)
    (rest1 : List (Tensor α)) (d : Nat) (hd : d ≠ 0)
    (hdr : ∀ a ∈ a0 :: rest1, d < a.rank)
    (hranks : ∀ a ∈ a0 :: rest1, a.rank = a0.rank)
    (hdims : ∀ a ∈ a0 :: rest1, ∀ j, j < a0.rank → j ≠ d → a.dims.getD j 0 = a0.dims.getD j 0)
    (hstride : ∀ a ∈ a0 :: rest1, a.stride.length = a.rank) :
    cat z (a0 :: rest1) d
      = ((a0 :: rest1).mapM (fun a => a.transpose 0 d) >>= fun targs =>
          cat z targs 0 >>= fun c => c.transpose 0 d) := by
  have hd0 : d < a0.rank := hdr a0 (List.mem_cons_self a0 rest1)
  have h0r : 0 < a0.rank := by omega
  have hbd : ∀ a ∈ a0 :: rest1, 0 < a.rank ∧ d < a.rank := by
    intro a ha
    have h1 := hdr a ha
    exact ⟨by omega, h1⟩
  have hmapM := mapM_transpose_ok d (a0 :: rest1) hbd
  cases rest1 with
  | nil =>
      rw [show cat z [a0] d = .ok a0 from rfl, hmapM]
      simp only [List.map_cons, List.map_nil]
      rw [exceptBind_ok]
      rw [show cat z [a0.swapDims 0 d] 0 = .ok (a0.swapDims 0 d) from rfl]
      rw [exceptBind_ok]
      rw [transpose_ok (i := 0) (j := d) (by rw [rank_swapDims]; omega)
        (by rw [rank_swapDims]; exact hd0)]
      rw [swapDims_involutive a0 0 d h0r hd0 (hstride a0 (List.mem_cons_self a0 []))]
  | cons r rs =>
      have hisE : (((r :: rs).isEmpty) = true) = False := by simp [List.isEmpty_iff]
      have hdl : d < a0.dims.length := hd0
      have ht : toIndex a0.dims d "cat" = .ok d := by
        unfold toIndex
        rw [if_pos hdl]
      have hcd : checkDimAll d (a0 :: r :: rs) = .ok () := checkDimAll_ok d _ hdr
      have hcl : catCheckLoop a0.rank a0.dims d (a0 :: r :: rs) 0 = .ok () := by
        refine catCheckLoop_ok a0.rank a0.dims d _ 0 ?_
        intro a ha
        refine ⟨(hranks a ha).symm, fun j hj => ?_⟩
        exact (getD_agree_of_lt d (hranks a ha) (hdims a ha) j hj).symm
      have hdeq : (d == 0) = false := by simpa using hd
      have hL : cat z (a0 :: r :: rs) d
          = (match (a0 :: r :: rs).mapM (fun a => a.transpose 0 d) with
             | .error e => .error e
             | .ok targs =>
                match cat0 z targs with
                | .error e => .error e
                | .ok c => c.transpose 0 d) := by
        simp only [cat, hisE, if_false, ht, hcd, hcl, hdeq, Bool.false_eq_true]
      rw [hL, hmapM]
      simp only []
      rw [exceptBind_ok]
      have hcz : cat z ((a0 :: r :: rs).map (fun a => a.swapDims 0 d)) 0
          = cat0 z ((a0 :: r :: rs).map (fun a => a.swapDims 0 d)) := by
        have hmem : ∀ t ∈ (r :: rs).map (fun a => a.swapDims 0 d),
            ∃ a, a ∈ a0 :: r :: rs ∧ t = a.swapDims 0 d := by
          intro t htm
          obtain ⟨a, ha, heq⟩ := List.mem_map.mp htm
          exact ⟨a, List.mem_cons_of_mem a0 ha, heq.symm⟩
        have hgetD : ∀ a ∈ a0 :: r :: rs, ∀ j, j ≠ 0 →
            (a.swapDims 0 d).dims.getD j 0 = (a0.swapDims 0 d).dims.getD j 0 := by
          intro a ha j hj
          exact swap_getD_agree d hd h0r hd0 (hdr a ha) (hranks a ha) (hdims a ha) j hj
        simp only [List.map_cons]
        refine cat_at_zero_eq_cat0 z (a0.swapDims 0 d) ((r :: rs).map (fun a => a.swapDims 0 d))
          ?_ ?_ ?_
        · rw [rank_swapDims]
          exact h0r
        · intro t htm
          rcases List.mem_cons.mp htm with rfl | htm
          · rfl
          · obtain ⟨a, ha, heq⟩ := hmem t (by simpa using htm)
            rw [heq, rank_swapDims, rank_swapDims]
            exact hranks a ha
        · intro t htm j hj
          rcases List.mem_cons.mp htm with rfl | htm
          · rfl
          · obtain ⟨a, ha, heq⟩ := hmem t (by simpa using htm)
            rw [heq]
            exact hgetD a ha j hj
      rw [hcz]
      cases hres : cat0 z ((a0 :: r :: rs).map (fun a => a.swapDims 0 d)) with
      | error e => rfl
      | ok c => rfl

/-- Witness for the transpose-refinement theorem: two `2 x 3` tensors
concatenated along dimension 1. -/
theorem cat_nonzero_dim_refines_transpose_witness :
    cat (0 : Int)
        [⟨[1, 2, 3, 4, 5, 6], [2, 3], [3, 1], 0, .f32, .cpu⟩,
         ⟨[7, 8, 9, 10, 11, 12], [2, 3], [3, 1], 0, .f32, .cpu⟩] 1
      = (([⟨[1, 2, 3, 4, 5, 6], [2, 3], [3, 1], 0, .f32, .cpu⟩,
           (⟨[7, 8, 9, 10, 11, 12], [2, 3], [3, 1], 0, .f32, .cpu⟩ : Tensor Int)].mapM
            (fun a => a.transpose 0 1)) >>= fun targs =>
          cat 0 targs 0 >>= fun c => c.transpose 0 1) := by
  refine cat_nonzero_dim_refines_transpose 0 _ _ 1 (by decide) ?_ ?_ ?_ ?_
  · intro a ha
    fin_cases ha <;> decide
  · intro a ha
    fin_cases ha <;> decide
  · intro a ha
    fin_cases ha <;> decide
  · intro a ha
    fin_cases ha <;> decide

/-! ### Concatenation: error-path characterizations -/

theorem catZipCheck_err (d : Nat) (fS nS : List Nat) (n : Nat) :
    ∀ (f ad : List Nat) (i p : Nat),
      p < f.length → p < ad.length →
      (∀ q, q < p → i + q ≠ d → f.getD q 0 = ad.getD q 0) →
      i + p ≠ d → f.getD p 0 ≠ ad.getD p 0 →
      catZipCheck d fS nS n f ad i = .error (.shapeMismatchCat (i + p) fS n nS) := by
  intro f
  induction f with
  | nil =>
      intro ad i p hpf _ _ _ _
      simp at hpf
  | cons v1 fs ih =>
      intro ad i p hpf hpa hq hpd hne
      cases ad with
      | nil => simp at hpa
      | cons v2 ns =>
          cases p with
          | zero =>
              simp only [List.getD_cons_zero] at hne
              have hid : i ≠ d := by omega
              simp only [catZipCheck]
              rw [if_pos (show i ≠ d ∧ v1 ≠ v2 from ⟨hid, hne⟩)]
              rfl
          | succ p =>
              have hcond : ¬ (i ≠ d ∧ v1 ≠ v2) := by
                intro ⟨hid, hv⟩
                have := hq 0 (Nat.succ_pos p) (by omega)
                simp only [List.getD_cons_zero] at this
                exact hv this
              simp only [catZipCheck, if_neg hcond]
              have := ih ns (i + 1) p (by simpa using hpf) (by simpa using hpa)
                (fun q hqp hqd => by
                  have := hq (q + 1) (by omega) (by omega)
                  simpa [List.getD_cons_succ] using this)
                (by omega)
                (by
                  have h1 : (v1 :: fs).getD (p + 1) 0 = fs.getD p 0 := List.getD_cons_succ
                  have h2 : (v2 :: ns).getD (p + 1) 0 = ns.getD p 0 := List.getD_cons_succ
                  rw [h1, h2] at hne
                  exact hne)
              rw [show i + 1 + p = i + (p + 1) from by omega] at this
              exact this

theorem catCheckLoop_err_rank {α : Type} (rank0 : Nat) (fd : List Nat) (d : Nat)
    (dflt : Tensor α) :
    ∀ (args : List (Tensor α)) (idx i : Nat), i < args.length →
      (∀ j, j < i → rank0 = (args.getD j dflt).rank
          ∧ ∀ q, q ≠ d → fd.getD q 0 = (args.getD j dflt).dims.getD q 0) →
      rank0 ≠ (args.getD i dflt).rank →
      catCheckLoop rank0 fd d args idx
        = .error (.unexpectedNumberOfDims rank0 (args.getD i dflt).rank
            (args.getD i dflt).dims) := by
  intro args
  induction args with
  | nil =>
      intro idx i hi _ _
      simp at hi
  | cons a rest ih =>
      intro idx i hi hpass hoff
      cases i with
      | zero =>
          simp only [List.getD_cons_zero] at hoff ⊢
          simp only [catCheckLoop, ne_eq]
          rw [if_pos hoff]
      | succ i =>
          obtain ⟨hrk, hag⟩ := hpass 0 (Nat.succ_pos i)
          simp only [List.getD_cons_zero] at hrk hag
          simp only [List.getD_cons_succ] at hoff ⊢
          simp only [catCheckLoop, ne_eq]
          rw [if_neg (by simp [hrk])]
          rw [catZipCheck_ok d fd a.dims (idx + 1) fd a.dims 0 (fun q hq => hag q (by omega))]
          exact ih (idx + 1) i (by simpa using hi)
            (fun j hj => by
              have := hpass (j + 1) (by omega)
              simpa [List.getD_cons_succ] using this)
            hoff

theorem catCheckLoop_err_shape {α : Type} (rank0 : Nat) (fd : List Nat) (d : Nat)
    (dflt : Tensor α) :
    ∀ (args : List (Tensor α)) (idx i p : Nat), i < args.length →
      (∀ j, j ≤ i → rank0 = (args.getD j dflt).rank) →
      (∀ j, j < i → ∀ q, q ≠ d → fd.getD q 0 = (args.getD j dflt).dims.getD q 0) →
      p < fd.length → p < (args.getD i dflt).dims.length →
      (∀ q, q < p → q ≠ d → fd.getD q 0 = (args.getD i dflt).dims.getD q 0) →
      p ≠ d → fd.getD p 0 ≠ (args.getD i dflt).dims.getD p 0 →
      catCheckLoop rank0 fd d args idx
        = .error (.shapeMismatchCat p fd (idx + i + 1) (args.getD i dflt).dims) := by
  intro args
  induction args with
  | nil =>
      intro idx i p hi _ _ _ _ _ _ _
      simp at hi
  | cons a rest ih =>
      intro idx i p hi hranks hpass hpf hpa hq hpd hne
      cases i with
      | zero =>
          have hrk := hranks 0 (Nat.le_refl 0)
          simp only [List.getD_cons_zero] at hrk hpa hq hne ⊢
          simp only [catCheckLoop, ne_eq]
          rw [if_neg (by simp [hrk])]
          have hz := catZipCheck_err d fd a.dims (idx + 1) fd a.dims 0 p hpf hpa
            (fun q hqp hqd => hq q hqp (by omega)) (by omega) hne
          rw [show (0 : Nat) + p = p from by omega] at hz
          rw [hz]
      | succ i =>
          have hrk := hranks 0 (Nat.zero_le _)
          have hag := hpass 0 (Nat.succ_pos i)
          simp only [List.getD_cons_zero] at hrk hag
          simp only [List.getD_cons_succ] at hpa hq hne ⊢
          simp only [catCheckLoop, ne_eq]
          rw [if_neg (by simp [hrk])]
          rw [catZipCheck_ok d fd a.dims (idx + 1) fd a.dims 0 (fun q hqd => hag q (by omega))]
          have := ih (idx + 1) i p (by simpa using hi)
            (fun j hj => by
              have := hranks (j + 1) (by omega)
              simpa [List.getD_cons_succ] using this)
            (fun j hj => by
              have := hpass (j + 1) (by omega)
              simpa [List.getD_cons_succ] using this)
            hpf hpa hq hpd hne
          rw [show idx + 1 + i + 1 = idx + (i + 1) + 1 from by omega] at this
          exact this

theorem cat0Loop_err_dtype {α : Type} (dtype : DType) (device : DeviceLocation)
    (f0 : Nat) (ft : List Nat) (dflt : Tensor α) :
    ∀ (args : List (Tensor α)) (idx c last : Nat) (offs : List Nat) (i : Nat),
      i < args.length →
      (∀ j, j < i → (args.getD j dflt).dtype = dtype ∧ (args.getD j dflt).device = device
          ∧ (args.getD j dflt).dims = (args.getD j dflt).dims.headD 0 :: ft) →
      (args.getD i dflt).dtype ≠ dtype →
      cat0Loop dtype device (f0 :: ft).length (f0 :: ft) args idx c last offs
        = .error (.dtypeMismatchBinaryOp dtype (args.getD i dflt).dtype "cat") := by
  intro args
  induction args with
  | nil =>
      intro idx c last offs i hi _ _
      simp at hi
  | cons a rest ih =>
      intro idx c last offs i hi hpass hoff
      cases i with
      | zero =>
          simp only [List.getD_cons_zero] at hoff ⊢
          simp only [cat0Loop, ne_eq]
          rw [if_pos hoff]
      | succ i =>
          obtain ⟨hdt, hdev, hdims⟩ := hpass 0 (Nat.succ_pos i)
          simp only [List.getD_cons_zero] at hdt hdev hdims
          have hrank : a.rank = (f0 :: ft).length := by
            rw [Tensor.rank, hdims]
            simp
          simp only [List.getD_cons_succ] at hoff ⊢
          simp only [cat0Loop, ne_eq]
          rw [if_neg (by simp [hdt]), if_neg (by simp [hdev]), if_neg (by simp [hrank])]
          rw [show cat0ZipCheck (f0 :: ft) a.dims (idx + 1) (f0 :: ft) a.dims 0 c
              = .ok (c + a.dims.headD 0) from by
            conv_lhs => rw [hdims]
            exact cat0ZipCheck_cons0 _ _ _ f0 _ ft c]
          simp only []
          exact ih (idx + 1) (c + a.dims.headD 0) (last + a.elemCount)
            (offs ++ [last + a.elemCount]) i (by simpa using hi)
            (fun j hj => by
              have := hpass (j + 1) (by omega)
              simpa [List.getD_cons_succ] using this)
            hoff

theorem cat0Loop_err_device {α : Type} (dtype : DType) (device : DeviceLocation)
    (f0 : Nat) (ft : List Nat) (dflt : Tensor α) :
    ∀ (args : List (Tensor α)) (idx c last : Nat) (offs : List Nat) (i : Nat),
      i < args.length →
      (∀ j, j < i → (args.getD j dflt).dtype = dtype ∧ (args.getD j dflt).device = device
          ∧ (args.getD j dflt).dims = (args.getD j dflt).dims.headD 0 :: ft) →
      (args.getD i dflt).dtype = dtype →
      (args.getD i dflt).device ≠ device →
      cat0Loop dtype device (f0 :: ft).length (f0 :: ft) args idx c last offs
        = .error (.deviceMismatchBinaryOp device (args.getD i dflt).device "cat") := by
  intro args
  induction args with
  | nil =>
      intro idx c last offs i hi _ _ _
      simp at hi
  | cons a rest ih =>
      intro idx c last offs i hi hpass hofft hoffd
      cases i with
      | zero =>
          simp only [List.getD_cons_zero] at hofft hoffd ⊢
          simp only [cat0Loop, ne_eq]
          rw [if_neg (by simp [hofft]), if_pos hoffd]
      | succ i =>
          obtain ⟨hdt, hdev, hdims⟩ := hpass 0 (Nat.succ_pos i)
          simp only [List.getD_cons_zero] at hdt hdev hdims
          have hrank : a.rank = (f0 :: ft).length := by
            rw [Tensor.rank, hdims]
            simp
          simp only [List.getD_cons_succ] at hofft hoffd ⊢
          simp only [cat0Loop, ne_eq]
          rw [if_neg (by simp [hdt]), if_neg (by simp [hdev]), if_neg (by simp [hrank])]
          rw [show cat0ZipCheck (f0 :: ft) a.dims (idx + 1) (f0 :: ft) a.dims 0 c
              = .ok (c + a.dims.headD 0) from by
            conv_lhs => rw [hdims]
            exact cat0ZipCheck_cons0 _ _ _ f0 _ ft c]
          simp only []
          exact ih (idx + 1) (c + a.dims.headD 0) (last + a.elemCount)
            (offs ++ [last + a.elemCount]) i (by simpa using hi)
            (fun j hj => by
              have := hpass (j + 1) (by omega)
              simpa [List.getD_cons_succ] using this)
            hofft hoffd

theorem getD_map {β γ : Type} (f : β → γ) (l : List β) (n : Nat) (d : β) :
    (l.map f).getD n (f d) = f (l.getD n d) := by
  by_cases h : n < l.length
  · have h' : n < (l.map f).length := by simpa using h
    rw [List.getD_eq_getElem _ _ h', List.getElem_map, List.getD_eq_getElem _ _ h]
  · rw [List.getD_eq_default _ _ (by simpa using Nat.le_of_not_lt h),
      List.getD_eq_default _ _ (Nat.le_of_not_lt h)]

theorem getD_mem_cons {β : Type} (a0 : β) (rest : List β) (j : Nat)
    (hj : j < (a0 :: rest).length) : (a0 :: rest).getD j a0 ∈ a0 :: rest := by
  rw [List.getD_eq_getElem _ _ hj]
  exact List.getElem_mem hj

theorem cat0_err_dtype {α : Type} (z : α) (t0 : Tensor α) (trest : List (Tensor α))
    (hne : trest ≠ []) (f0 : Nat) (ft : List Nat) (h0 : t0.dims = f0 :: ft) (i : Nat)
    (hi : i < (t0 :: trest).length)
    (hpass : ∀ j, j < i → ((t0 :: trest).getD j t0).dtype = t0.dtype
        ∧ ((t0 :: trest).getD j t0).device = t0.device
        ∧ ((t0 :: trest).getD j t0).dims = ((t0 :: trest).getD j t0).dims.headD 0 :: ft)
    (hoff : ((t0 :: trest).getD i t0).dtype ≠ t0.dtype) :
    cat0 z (t0 :: trest)
      = .error (.dtypeMismatchBinaryOp t0.dtype ((t0 :: trest).getD i t0).dtype "cat") := by
  have hisE : (trest.isEmpty = true) = False := by simp [List.isEmpty_iff, hne]
  have hrank : t0.rank = (f0 :: ft).length := by rw [Tensor.rank, h0]
  simp only [cat0, hisE, if_false]
  rw [show Tensor.rank t0 = (f0 :: ft).length from hrank, h0]
  rw [cat0Loop_err_dtype t0.dtype t0.device f0 ft t0 (t0 :: trest) 0 0 0 [0] i hi hpass hoff]

theorem cat0_err_device {α : Type} (z : α) (t0 : Tensor α) (trest : List (Tensor α))
    (hne : trest ≠ []) (f0 : Nat) (ft : List Nat) (h0 : t0.dims = f0 :: ft) (i : Nat)
    (hi : i < (t0 :: trest).length)
    (hpass : ∀ j, j < i → ((t0 :: trest).getD j t0).dtype = t0.dtype
        ∧ ((t0 :: trest).getD j t0).device = t0.device
        ∧ ((t0 :: trest).getD j t0).dims = ((t0 :: trest).getD j t0).dims.headD 0 :: ft)
    (hofft : ((t0 :: trest).getD i t0).dtype = t0.dtype)
    (hoffd : ((t0 :: trest).getD i t0).device ≠ t0.device) :
    cat0 z (t0 :: trest)
      = .error (.deviceMismatchBinaryOp t0.device ((t0 :: trest).getD i t0).device "cat") := by
  have hisE : (trest.isEmpty = true) = False := by simp [List.isEmpty_iff, hne]
  have hrank : t0.rank = (f0 :: ft).length := by rw [Tensor.rank, h0]
  simp only [cat0, hisE, if_false]
  rw [show Tensor.rank t0 = (f0 :: ft).length from hrank, h0]
  rw [cat0Loop_err_device t0.dtype t0.device f0 ft t0 (t0 :: trest) 0 0 0 [0] i hi hpass
    hofft hoffd]

/-- The four ways an argument can disagree with the first tensor in `cat`. -/
inductive MismatchKind where
  | rankKind
  | dtypeKind
  | deviceKind
  | shapeKind
deriving DecidableEq

/-- A first-offender mismatch scenario for `cat (a0 :: rest) d`: the tensor at
(0-based) position `i` is the first one that disagrees with `a0`, and it
disagrees only in the aspect selected by `k` (for `shapeKind`, at dimension `p`,
the first differing position other than `d`). -/
def mismatchScenario {α : Type} (k : MismatchKind) (a0 : Tensor α) (rest : List (Tensor α))
    (d i p : Nat) : Prop :=
  rest ≠ [] ∧ 1 ≤ i ∧ i < (a0 :: rest).length ∧ (∀ a ∈ a0 :: rest, d < a.rank) ∧
  match k with
  | .rankKind =>
      (∀ j, j < i → ((a0 :: rest).getD j a0).rank = a0.rank
        ∧ ∀ q, q < a0.rank → q ≠ d → ((a0 :: rest).getD j a0).dims.getD q 0 = a0.dims.getD q 0)
      ∧ ((a0 :: rest).getD i a0).rank ≠ a0.rank
  | .shapeKind =>
      (∀ a ∈ a0 :: rest, a.rank = a0.rank)
      ∧ (∀ j, j < i → ∀ q, q < a0.rank → q ≠ d →
          ((a0 :: rest).getD j a0).dims.getD q 0 = a0.dims.getD q 0)
      ∧ p < a0.rank ∧ p ≠ d
      ∧ (∀ q, q < p → q ≠ d → ((a0 :: rest).getD i a0).dims.getD q 0 = a0.dims.getD q 0)
      ∧ ((a0 :: rest).getD i a0).dims.getD p 0 ≠ a0.dims.getD p 0
  | .dtypeKind =>
      (∀ a ∈ a0 :: rest, a.rank = a0.rank)
      ∧ (∀ a ∈ a0 :: rest, ∀ q, q < a0.rank → q ≠ d → a.dims.getD q 0 = a0.dims.getD q 0)
      ∧ (∀ j, j < i → ((a0 :: rest).getD j a0).dtype = a0.dtype
          ∧ ((a0 :: rest).getD j a0).device = a0.device)
      ∧ ((a0 :: rest).getD i a0).dtype ≠ a0.dtype
  | .deviceKind =>
      (∀ a ∈ a0 :: rest, a.rank = a0.rank)
      ∧ (∀ a ∈ a0 :: rest, ∀ q, q < a0.rank → q ≠ d → a.dims.getD q 0 = a0.dims.getD q 0)
      ∧ (∀ j, j < i → ((a0 :: rest).getD j a0).dtype = a0.dtype
          ∧ ((a0 :: rest).getD j a0).device = a0.device)
      ∧ ((a0 :: rest).getD i a0).dtype = a0.dtype
      ∧ ((a0 :: rest).getD i a0).device ≠ a0.device

/-- The specific error `cat` reports in each scenario.  The shape error names
the 1-based index of the offending tensor; the rank error reports the expected
and actual ranks and the offending shape, but not the index. -/
def mismatchError {α : Type} (k : MismatchKind) (a0 argI : Tensor α) (i p : Nat) : CError :=
  match k with
  | .rankKind => .unexpectedNumberOfDims a0.rank argI.rank argI.dims
  | .shapeKind => .shapeMismatchCat p a0.dims (i + 1) argI.dims
  | .dtypeKind => .dtypeMismatchBinaryOp a0.dtype argI.dtype "cat"
  | .deviceKind => .deviceMismatchBinaryOp a0.device argI.device "cat"

theorem dims_exists_cons {α : Type} (t : Tensor α) (h : 0 < t.rank) :
    ∃ f0 ft, t.dims = f0 :: ft := by
  cases hd : t.dims with
  | nil =>
      rw [Tensor.rank, hd] at h
      simp at h
  | cons x xt => exact ⟨x, xt, rfl⟩

theorem swap_dims_cons {α : Type} {a0 a : Tensor α} (d : Nat) (hd : d ≠ 0)
    (h0r : 0 < a0.rank) (hd0 : d < a0.rank) (hda : d < a.rank) (hrk : a.rank = a0.rank)
    (hag : ∀ q, q < a0.rank → q ≠ d → a.dims.getD q 0 = a0.dims.getD q 0) :
    (a.swapDims 0 d).dims = (a.swapDims 0 d).dims.headD 0 :: (a0.swapDims 0 d).dims.tail := by
  refine dims_cons_of_agree ?_ ?_ ?_
  · rw [rank_swapDims]
    exact h0r
  · rw [rank_swapDims, rank_swapDims]
    exact hrk
  · intro j hj
    exact swap_getD_agree d hd h0r hd0 hda hrk hag j hj

/-- C9 (amended): for a list of two or more tensors whose first disagreement
with the first tensor is of a single kind — rank, dtype, device, or size on a
dimension other than the concatenation dimension — `cat` returns the
corresponding specific mismatch error.  The shape mismatch error names the
1-based index of the offending tensor; the rank mismatch error reports the
expected and actual ranks and the offending shape, but not the index (see the
counterexample theorem). -/
theorem cat_mismatch_specific_error {α : Type} (k : MismatchKind) (z : α) (a0 : Tensor α)
    (rest : List (Tensor α)) (d i p : Nat)
    (h : mismatchScenario k a0 rest d i p) :
    cat z (a0 :: rest) d = .error (mismatchError k a0 ((a0 :: rest).getD i a0) i p) := by
  obtain ⟨hne, hi1, hilen, hdr, hk⟩ := h
  have hd0 : d < a0.rank := hdr a0 (List.mem_cons_self a0 rest)
  have h0r : 0 < a0.rank := by omega
  have hdl : d < a0.dims.length := hd0
  have ht : toIndex a0.dims d "cat" = .ok d := by
    unfold toIndex
    rw [if_pos hdl]
  have hcd : checkDimAll d (a0 :: rest) = .ok () := checkDimAll_ok d _ hdr
  cases rest with
  | nil => exact absurd rfl hne
  | cons r rs =>
  have hisE : (((r :: rs).isEmpty) = true) = False := by simp [List.isEmpty_iff]
  have hmemD : ∀ j, j < (a0 :: r :: rs).length → (a0 :: r :: rs).getD j a0 ∈ a0 :: r :: rs :=
    fun j hj => getD_mem_cons a0 (r :: rs) j hj
  cases k with
  | rankKind =>
      obtain ⟨hpass, hoff⟩ := hk
      have hclerr := catCheckLoop_err_rank a0.rank a0.dims d a0 (a0 :: r :: rs) 0 i hilen
        (fun j hj => by
          obtain ⟨hrkj, hagj⟩ := hpass j hj
          exact ⟨hrkj.symm, fun q hq =>
            (getD_agree_of_lt d hrkj (fun q' hq1 hq2 => hagj q' hq1 hq2) q hq).symm⟩)
        (Ne.symm hoff)
      simp only [cat, hisE, if_false, ht, hcd, hclerr, mismatchError]
  | shapeKind =>
      obtain ⟨hrkAll, hpass, hplt, hpd, hqpass, hoff⟩ := hk
      have hrkI : ((a0 :: r :: rs).getD i a0).rank = a0.rank := hrkAll _ (hmemD i hilen)
      have hlI : ((a0 :: r :: rs).getD i a0).dims.length = a0.rank := hrkI
      have hclerr := catCheckLoop_err_shape a0.rank a0.dims d a0 (a0 :: r :: rs) 0 i p hilen
        (fun j hj => (hrkAll _ (hmemD j (by omega))).symm)
        (fun j hj q hq => (getD_agree_of_lt d (hrkAll _ (hmemD j (by omega)))
          (hpass j hj) q hq).symm)
        (show p < a0.dims.length from hplt)
        (by rw [hlI]; exact hplt)
        (fun q hq hqd => (hqpass q hq hqd).symm)
        hpd
        (fun hc => hoff hc.symm)
      rw [show (0 : Nat) + i + 1 = i + 1 from by omega] at hclerr
      simp only [cat, hisE, if_false, ht, hcd, hclerr, mismatchError]
  | dtypeKind =>
      obtain ⟨hrkAll, hagAll, hpass, hoff⟩ := hk
      have hcl : catCheckLoop a0.rank a0.dims d (a0 :: r :: rs) 0 = .ok () := by
        refine catCheckLoop_ok _ _ _ _ 0 ?_
        intro a ha
        exact ⟨(hrkAll a ha).symm, fun q hq =>
          (getD_agree_of_lt d (hrkAll a ha) (hagAll a ha) q hq).symm⟩
      by_cases hdz : d = 0
      · subst hdz
        obtain ⟨f0, ft, h0⟩ := dims_exists_cons a0 h0r
        have hc0err := cat0_err_dtype z a0 (r :: rs) (by simp) f0 ft h0 i hilen
          (fun j hj => by
            obtain ⟨hdt, hdev⟩ := hpass j hj
            refine ⟨hdt, hdev, ?_⟩
            have hrkj := hrkAll _ (hmemD j (by omega))
            have hcons := dims_cons_of_agree h0r hrkj
              (getD_agree_of_lt 0 hrkj (hagAll _ (hmemD j (by omega))))
            rw [hcons]
            congr 1
            rw [h0]
            rfl)
          hoff
        simp only [cat, hisE, if_false, ht, hcd, hcl, beq_self_eq_true, if_true, hc0err,
          mismatchError]
      · have hdeq : (d == 0) = false := by simpa using hdz
        have hbd : ∀ a ∈ a0 :: r :: rs, 0 < a.rank ∧ d < a.rank := by
          intro a ha
          have h1 := hdr a ha
          exact ⟨by omega, h1⟩
        have hmapM := mapM_transpose_ok d _ hbd
        obtain ⟨g0, gt, hg⟩ := dims_exists_cons (a0.swapDims 0 d)
          (by rw [rank_swapDims]; exact h0r)
        have hgetDi : ((a0.swapDims 0 d) :: (r :: rs).map (fun a => a.swapDims 0 d)).getD i
            (a0.swapDims 0 d) = ((a0 :: r :: rs).getD i a0).swapDims 0 d := by
          have hm := getD_map (fun a => a.swapDims 0 d) (a0 :: r :: rs) i a0
          simpa [List.map_cons] using hm
        have hc0err := cat0_err_dtype z (a0.swapDims 0 d)
          ((r :: rs).map (fun a => a.swapDims 0 d)) (by simp) g0 gt hg i
          (by simpa using hilen)
          (fun j hj => by
            have hgetDj : ((a0.swapDims 0 d) :: (r :: rs).map (fun a => a.swapDims 0 d)).getD j
                (a0.swapDims 0 d) = ((a0 :: r :: rs).getD j a0).swapDims 0 d := by
              have hm := getD_map (fun a => a.swapDims 0 d) (a0 :: r :: rs) j a0
              simpa [List.map_cons] using hm
            obtain ⟨hdt, hdev⟩ := hpass j hj
            rw [hgetDj]
            refine ⟨hdt, hdev, ?_⟩
            have hcons := swap_dims_cons d hdz h0r hd0 (hdr _ (hmemD j (by omega)))
              (hrkAll _ (hmemD j (by omega))) (hagAll _ (hmemD j (by omega)))
            rw [hcons]
            congr 1
            rw [hg]
            rfl)
          (by
            rw [hgetDi]
            exact hoff)
        simp only [cat, hisE, if_false, ht, hcd, hcl, hdeq, Bool.false_eq_true, if_false]
        rw [hmapM]
        simp only [List.map_cons]
        simp only [List.map_cons] at hc0err hgetDi
        rw [hc0err, hgetDi]
        rfl
  | deviceKind =>
      obtain ⟨hrkAll, hagAll, hpass, hofft, hoffd⟩ := hk
      have hcl : catCheckLoop a0.rank a0.dims d (a0 :: r :: rs) 0 = .ok () := by
        refine catCheckLoop_ok _ _ _ _ 0 ?_
        intro a ha
        exact ⟨(hrkAll a ha).symm, fun q hq =>
          (getD_agree_of_lt d (hrkAll a ha) (hagAll a ha) q hq).symm⟩
      by_cases hdz : d = 0
      · subst hdz
        obtain ⟨f0, ft, h0⟩ := dims_exists_cons a0 h0r
        have hc0err := cat0_err_device z a0 (r :: rs) (by simp) f0 ft h0 i hilen
          (fun j hj => by
            obtain ⟨hdt, hdev⟩ := hpass j hj
            refine ⟨hdt, hdev, ?_⟩
            have hrkj := hrkAll _ (hmemD j (by omega))
            have hcons := dims_cons_of_agree h0r hrkj
              (getD_agree_of_lt 0 hrkj (hagAll _ (hmemD j (by omega))))
            rw [hcons]
            congr 1
            rw [h0]
            rfl)
          hofft hoffd
        simp only [cat, hisE, if_false, ht, hcd, hcl, beq_self_eq_true, if_true, hc0err,
          mismatchError]
      · have hdeq : (d == 0) = false := by simpa using hdz
        have hbd : ∀ a ∈ a0 :: r :: rs, 0 < a.rank ∧ d < a.rank := by
          intro a ha
          have h1 := hdr a ha
          exact ⟨by omega, h1⟩
        have hmapM := mapM_transpose_ok d _ hbd
        obtain ⟨g0, gt, hg⟩ := dims_exists_cons (a0.swapDims 0 d)
          (by rw [rank_swapDims]; exact h0r)
        have hgetDi : ((a0.swapDims 0 d) :: (r :: rs).map (fun a => a.swapDims 0 d)).getD i
            (a0.swapDims 0 d) = ((a0 :: r :: rs).getD i a0).swapDims 0 d := by
          have hm := getD_map (fun a => a.swapDims 0 d) (a0 :: r :: rs) i a0
          simpa [List.map_cons] using hm
        have hc0err := cat0_err_device z (a0.swapDims 0 d)
          ((r :: rs).map (fun a => a.swapDims 0 d)) (by simp) g0 gt hg i
          (by simpa using hilen)
          (fun j hj => by
            have hgetDj : ((a0.swapDims 0 d) :: (r :: rs).map (fun a => a.swapDims 0 d)).getD j
                (a0.swapDims 0 d) = ((a0 :: r :: rs).getD j a0).swapDims 0 d := by
              have hm := getD_map (fun a => a.swapDims 0 d) (a0 :: r :: rs) j a0
              simpa [List.map_cons] using hm
            obtain ⟨hdt, hdev⟩ := hpass j hj
            rw [hgetDj]
            refine ⟨hdt, hdev, ?_⟩
            have hcons := swap_dims_cons d hdz h0r hd0 (hdr _ (hmemD j (by omega)))
              (hrkAll _ (hmemD j (by omega))) (hagAll _ (hmemD j (by omega)))
            rw [hcons]
            congr 1
            rw [hg]
            rfl)
          (by
            rw [hgetDi]
            exact hofft)
          (by
            rw [hgetDi]
            exact hoffd)
        simp only [cat, hisE, if_false, ht, hcd, hcl, hdeq, Bool.false_eq_true, if_false]
        rw [hmapM]
        simp only [List.map_cons]
        simp only [List.map_cons] at hc0err hgetDi
        rw [hc0err, hgetDi]
        rfl

/-- C9 counterexample: the rank mismatch error does *not* name the index of the
offending tensor.  With the rank-1 offender at index 1 or at index 2 of the
argument list, `cat` returns the *identical* error value
`UnexpectedNumberOfDims { expected: 2, got: 1, shape: [2] }`, so the error
cannot name the offending index. -/
theorem cat_rank_error_does_not_name_index :
    cat (0 : Int)
        [⟨[1, 2, 3, 4], [2, 2], [2, 1], 0, .f32, .cpu⟩,
         ⟨[1, 2], [2], [1], 0, .f32, .cpu⟩,
         ⟨[1, 2, 3, 4], [2, 2], [2, 1], 0, .f32, .cpu⟩] 0
      = cat (0 : Int)
          [⟨[1, 2, 3, 4], [2, 2], [2, 1], 0, .f32, .cpu⟩,
           ⟨[1, 2, 3, 4], [2, 2], [2, 1], 0, .f32, .cpu⟩,
           ⟨[1, 2], [2], [1], 0, .f32, .cpu⟩] 0
      ∧ cat (0 : Int)
          [⟨[1, 2, 3, 4], [2, 2], [2, 1], 0, .f32, .cpu⟩,
           ⟨[1, 2], [2], [1], 0, .f32, .cpu⟩,
           ⟨[1, 2, 3, 4], [2, 2], [2, 1], 0, .f32, .cpu⟩] 0
        = .error (.unexpectedNumberOfDims 2 1 [2]) := by
  exact ⟨rfl, rfl⟩

/-- Witness for the mismatch-error theorem: one concrete scenario per kind. -/
theorem cat_mismatch_specific_error_witness :
    cat (0 : Int) [⟨[1, 2, 3, 4], [2, 2], [2, 1], 0, .f32, .cpu⟩,
        ⟨[1, 2], [2], [1], 0, .f32, .cpu⟩] 0
      = .error (mismatchError .rankKind ⟨[1, 2, 3, 4], [2, 2], [2, 1], 0, .f32, .cpu⟩
          ⟨[1, 2], [2], [1], 0, .f32, .cpu⟩ 1 0)
    ∧ cat (0 : Int) [⟨[1, 2, 3, 4], [2, 2], [2, 1], 0, .f32, .cpu⟩,
        ⟨[5, 6, 7, 8], [2, 2], [2, 1], 0, .f64, .cpu⟩] 0
      = .error (mismatchError .dtypeKind ⟨[1, 2, 3, 4], [2, 2], [2, 1], 0, .f32, .cpu⟩
          ⟨[5, 6, 7, 8], [2, 2], [2, 1], 0, .f64, .cpu⟩ 1 0)
    ∧ cat (0 : Int) [⟨[1, 2, 3, 4], [2, 2], [2, 1], 0, .f32, .cpu⟩,
        ⟨[5, 6, 7, 8], [2, 2], [2, 1], 0, .f32, .cuda 0⟩] 0
      = .error (mismatchError .deviceKind ⟨[1, 2, 3, 4], [2, 2], [2, 1], 0, .f32, .cpu⟩
          ⟨[5, 6, 7, 8], [2, 2], [2, 1], 0, .f32, .cuda 0⟩ 1 0)
    ∧ cat (0 : Int) [⟨[1, 2, 3, 4], [2, 2], [2, 1], 0, .f32, .cpu⟩,
        ⟨[1, 2, 3, 4, 5, 6], [2, 3], [3, 1], 0, .f32, .cpu⟩] 0
      = .error (mismatchError .shapeKind ⟨[1, 2, 3, 4], [2, 2], [2, 1], 0, .f32, .cpu⟩
          ⟨[1, 2, 3, 4, 5, 6], [2, 3], [3, 1], 0, .f32, .cpu⟩ 1 1) := by
  refine ⟨?_, ?_, ?_, ?_⟩
  · exact cat_mismatch_specific_error .rankKind 0 _ _ 0 1 0
      (by simp only [mismatchScenario]; decide)
  · exact cat_mismatch_specific_error .dtypeKind 0 _ _ 0 1 0
      (by simp only [mismatchScenario]; decide)
  · exact cat_mismatch_specific_error .deviceKind 0 _ _ 0 1 0
      (by simp only [mismatchScenario]; decide)
  · exact cat_mismatch_specific_error .shapeKind 0 _ _ 0 1 1
      (by simp only [mismatchScenario]; decide)

end Candle
